import Mathlib

/-!
Verification of the shape-space discretization and reconstruction pipeline of
`cvapipe_analysis` (file `steps/shapemode/avgshape.py`), against its
natural-language specification.

The Python data model is shallowly embedded as follows.

* A dataframe (`DF`) is a list of columns (`cols`) together with rows, each row
  being an integer index paired with an association list from column name to an
  exact rational value (`Row`).  Floating point numbers are modelled by `ℚ`.
* Raising a Python exception is modelled by returning `Except Err _`, where the
  `Err` constructors name the exception raised by the code (`KeyError`,
  `ValueError` from `np.percentile`, the bare `Exception`s of
  `find_plane_mesh_intersection` and `get_shcoeff_matrix_from_dataframe`, and
  the `TypeError` of `reduce` on an empty sequence).
* In-place mutation of a caller's dataframe is modelled by returning, next to
  the function result, the final state of the argument dataframe.
* `np.percentile` (default linear interpolation), `np.digitize`, `np.unique`
  and `np.linspace` are modelled from their documented exact-arithmetic
  semantics (`np.unique` = sort then deduplicate).
* Transcendental operations (the `atan2`-based clockwise sort key of
  `find_plane_mesh_intersection`, `np.cos`/`np.sin` in
  `transform_coords_to_mem_space`, `np.sqrt` inside `np.std`) and external
  library calls (the VTK plane/mesh intersection, the `aicsshparam` surface
  reconstruction) are not exactly representable over `ℚ`; they enter the
  embedding as explicit function parameters, and every theorem quantifies over
  them, so nothing proved depends on their values.
-/

/-- One dataframe row: an association list from column name to value.  The
Python code reads columns of a row by name (`row["col"]`); `rowVal` models that
read, and `setVal` models the write `row["col"] = v` (pandas overwrites an
existing column in place and appends a new one at the end). -/
abbrev Row := List (String × ℚ)

def rowVal (r : Row) (k : String) : ℚ :=
  match r.find? (fun kv => kv.fst == k) with
  | some kv => kv.snd
  | none => 0

def setVal (r : Row) (k : String) (v : ℚ) : Row :=
  if r.any (fun kv => kv.fst == k) then
    r.map (fun kv => if kv.fst == k then (k, v) else kv)
  else
    r ++ [(k, v)]

def rowKeys (r : Row) : List String := r.map Prod.fst

/-- A pandas dataframe: ordered column names plus indexed rows. -/
structure DF where
  cols : List String
  rows : List (ℕ × Row)
deriving DecidableEq

/-- Python exceptions raised by the embedded functions. -/
inductive Err where
  | keyError (key : String)
  | valueError (msg : String)
  | degeneratePlane
  | reduceEmpty
  | noCoefficientsFound (pre : String)
deriving DecidableEq

/-- `np.percentile(xs, q)` with the default linear interpolation: for sorted
values `s` of length `m`, the result is `s[⌊h⌋] + (h - ⌊h⌋) * (s[⌊h⌋+1] - s[⌊h⌋])`
where `h = (m-1) * q / 100`.  numpy raises on an empty input array and on
`q ∉ [0, 100]`; both error cases are handled by the caller (`markLoop`), so this
function itself is total (out-of-domain values return junk). -/
def percentile (xs : List ℚ) (q : ℚ) : ℚ :=
  let s := List.insertionSort (· ≤ ·) xs
  let h : ℚ := ((s.length : ℚ) - 1) * q / 100
  let i : ℕ := (Rat.floor h).toNat
  let fr : ℚ := h - (Rat.floor h : ℚ)
  let a := s.getD i 0
  a + fr * (s.getD (i + 1) a - a)

def colVals (d : DF) (f : String) : List ℚ :=
  d.rows.map (fun ir => rowVal ir.snd f)

/-- `df["extreme"] = False`: adds (or overwrites) the temporary flag column,
in place, on the caller's dataframe.  `False` is modelled as `0`, `True` as
`1`. -/
def dfSetExtreme (d : DF) : DF :=
  { cols := if "extreme" ∈ d.cols then d.cols else d.cols ++ ["extreme"],
    rows := d.rows.map (fun ir => (ir.fst, setVal ir.snd "extreme" 0)) }

/-- The two `df.loc[(df[f] < finf), "extreme"] = True` /
`df.loc[(df[f] > fsup), "extreme"] = True` statements for one feature: rows
whose value is strictly below `finf` or strictly above `fsup` get their flag
set; the flag is never cleared. -/
def markRows (d : DF) (f : String) (finf fsup : ℚ) : DF :=
  { cols := d.cols,
    rows := d.rows.map (fun ir =>
      if rowVal ir.snd f < finf ∨ fsup < rowVal ir.snd f then
        (ir.fst, setVal ir.snd "extreme" 1)
      else ir) }

/-- The `for f in features:` loop of `filter_extremes_based_on_percentile`.
For each feature in order: `df[f]` raises `KeyError` if the column is absent;
`np.percentile(df[f].values, [pct, 100-pct])` raises `ValueError` if
`pct ∉ [0, 100]` or if the dataframe has no rows; otherwise the rows outside
the two cutoffs are flagged.  An exception aborts the loop, leaving the
mutations already applied in place. -/
def markLoop (pct : ℚ) : DF → List String → DF × Option Err
  | d, [] => (d, none)
  | d, f :: fs =>
    if f ∉ d.cols then
      (d, some (Err.keyError f))
    else if pct < 0 ∨ 100 < pct then
      (d, some (Err.valueError "Percentiles must be in the range 0-100"))
    else if d.rows = [] then
      (d, some (Err.valueError "zero-size array to reduction operation"))
    else
      let vals := colVals d f
      markLoop pct (markRows d f (percentile vals pct) (percentile vals (100 - pct))) fs

/-- `filter_extremes_based_on_percentile(df, features, pct)`.  Mutates the
caller's dataframe (temporary `extreme` column plus the per-feature marks) and
returns the filtered copy: rows whose flag is still `False`, with the flag
column dropped.  The first component of the result is the final state of the
caller's dataframe, the second the function's return value (or the exception
raised). -/
def filter_extremes_based_on_percentile (df : DF) (features : List String) (pct : ℚ) :
    DF × Except Err DF :=
  match markLoop pct (dfSetExtreme df) features with
  | (d1, some e) => (d1, Except.error e)
  | (d1, none) =>
    (d1, Except.ok
      { cols := d1.cols.filter (fun c => ¬ c == "extreme"),
        rows := (d1.rows.filter (fun ir => rowVal ir.snd "extreme" == 0)).map
          (fun ir => (ir.fst, ir.snd.filter (fun kv => ¬ kv.fst == "extreme"))) })

/-- The record-retention predicate stated by the specification: a record is
kept iff on every listed feature its value lies in the closed interval between
the `pct`-th and `(100-pct)`-th percentiles, both computed over the original
unfiltered input. -/
def specKeep (df : DF) (features : List String) (pct : ℚ) (r : Row) : Bool :=
  features.all (fun f =>
    percentile (colVals df f) pct ≤ rowVal r f ∧
    rowVal r f ≤ percentile (colVals df f) (100 - pct))

/-- Bin half-width of `digitize_shape_mode`:
`binw = (LSUP - LINF) / (2 * (nbins - 1))` with `LINF = -2`, `LSUP = 2`. -/
def binw (n : ℕ) : ℚ := (2 - (-2)) / (2 * ((n : ℚ) - 1))

/-- `np.linspace(-2, 2, nbins)` evaluated at position `k`. -/
def binCenter (n k : ℕ) : ℚ := -2 + k * ((2 - (-2)) / ((n : ℚ) - 1))

def binCentersList (n : ℕ) : List ℚ := (List.range n).map (binCenter n)

/-- The flattened array `[(b - binw, b + binw) for b in bin_centers]` that the
code feeds to `np.unique`. -/
def edgeVals (n : ℕ) : List ℚ :=
  (binCentersList n).flatMap (fun b => [b - binw n, b + binw n])

/-- `np.unique`: sort, then remove duplicates. -/
def npUnique (l : List ℚ) : List ℚ := (List.insertionSort (· ≤ ·) l).dedup

/-- Extended rationals: ℚ together with `-np.inf` and `np.inf`, which the code
writes into the outermost bin edges. -/
inductive XQ where
  | negInf
  | fin (q : ℚ)
  | posInf
deriving DecidableEq

def XQ.leB : XQ → XQ → Bool
  | .negInf, _ => true
  | .fin _, .negInf => false
  | .fin a, .fin b => a ≤ b
  | .fin _, .posInf => true
  | .posInf, .posInf => true
  | .posInf, _ => false

/-- The bin-edge array of `digitize_shape_mode`:
`bin_edges = np.unique([(b - binw, b + binw) for b in bin_centers])` followed by
`bin_edges[0] = -np.inf; bin_edges[-1] = np.inf`. -/
def bin_edges (n : ℕ) : List XQ :=
  let raw := (npUnique (edgeVals n)).map XQ.fin
  (raw.set 0 XQ.negInf).set (raw.length - 1) XQ.posInf

/-- `np.digitize(z, edges)` for a strictly increasing edge array `edges` and
the default `right=False`: the index `i` with `edges[i-1] ≤ z < edges[i]`,
i.e. the number of edges that are `≤ z`. -/
def np_digitize (z : ℚ) (edges : List XQ) : ℕ :=
  edges.countP (fun e => XQ.leB e (XQ.fin z))

/-- The bin index `digitize_shape_mode` assigns to the z-scored value `z`. -/
def binOf (n : ℕ) (z : ℚ) : ℕ := np_digitize z (bin_edges n)

def listMean (l : List ℚ) : ℚ := l.sum / l.length

def natUnique (l : List ℕ) : List ℕ := (List.insertionSort (· ≤ ·) l).dedup

/-- Return value of `digitize_shape_mode`.  The Python function returns a
3-tuple without `return_freqs_per_structs` and a 4-tuple with it; the optional
fourth component is an `Option` here, and `first` is the tuple's first
component (which the two branches take from different dataframes). -/
structure DigitizeOut where
  first : DF
  bin_indexes : List (ℕ × List ℕ)
  bin_centers : List ℚ
  pc_std : ℚ
  freqs : Option (List ((String × ℕ) × ℕ))
deriving DecidableEq

/-- `digitize_shape_mode(df, feature, nbins, filter_based_on,
filter_extremes_pct, save, return_freqs_per_structs)`.

Two aspects are parameters of the embedding: `sqrtQ` stands for the square
root inside `np.std` (any function ℚ → ℚ; no theorem depends on its values),
and `sname` gives the `structure_name` column (a string-valued column, kept
outside the numeric dataframe) by row index.  The `save` argument only writes
a text report and is not modelled.  Mutation of the caller's dataframe by the
nested `filter_extremes_based_on_percentile` call is not re-exposed here; only
the function's return value is. -/
def digitize_shape_mode (sqrtQ : ℚ → ℚ) (sname : ℕ → String) (df : DF) (feature : String)
    (nbins : ℕ) (filter_based_on : List String) (filter_extremes_pct : ℚ)
    (return_freqs_per_structs : Bool) : Except Err DigitizeOut :=
  if feature ∉ df.cols then
    Except.error (Err.valueError ("Column " ++ feature ++ " not found."))
  else
    match (filter_extremes_based_on_percentile df filter_based_on filter_extremes_pct).snd with
    | Except.error e => Except.error e
    | Except.ok dff =>
      let values := dff.rows.map (fun ir => rowVal ir.snd feature)
      let centered := values.map (fun v => v - listMean values)
      let pc_std := sqrtQ (listMean (centered.map (fun v => (v - listMean centered) ^ 2)))
      let zs := centered.map (fun v => v / pc_std)
      let bins := zs.map (binOf nbins)
      let dfB : DF :=
        { cols := if "bin" ∈ dff.cols then dff.cols else dff.cols ++ ["bin"],
          rows := (dff.rows.zip bins).map (fun p => (p.fst.fst, setVal p.fst.snd "bin" (p.snd : ℚ))) }
      let distinct := natUnique bins
      let inBin : ℕ → List (ℕ × Row) := fun b =>
        dfB.rows.filter (fun ir => rowVal ir.snd "bin" == (b : ℚ))
      let bin_indexes := distinct.map (fun b => (b, (inBin b).map Prod.fst))
      let aggCols := dff.cols.filter (fun c => ¬ c == "bin")
      let df_agg : DF :=
        { cols := aggCols,
          rows := distinct.map (fun b =>
            (b, aggCols.map (fun c => (c, listMean ((inBin b).map (fun ir => rowVal ir.snd c)))))) }
      if return_freqs_per_structs then
        let pairs := (dff.rows.zip bins).map (fun p => (sname p.fst.fst, p.snd))
        let df_freq := pairs.dedup.map (fun k => (k, pairs.count k))
        Except.ok
          { first := df_agg, bin_indexes := bin_indexes,
            bin_centers := binCentersList nbins, pc_std := pc_std, freqs := some df_freq }
      else
        Except.ok
          { first := dfB, bin_indexes := bin_indexes,
            bin_centers := binCentersList nbins, pc_std := pc_std, freqs := none }

/-- `leadsWith pat l`: `pat` is an initial segment of `l`. -/
def leadsWith : List Char → List Char → Bool
  | [], _ => true
  | _ :: _, [] => false
  | a :: as, b :: bs => a == b && leadsWith as bs

/-- `hasSub pat l`: `pat` occurs as a contiguous run inside `l`. -/
def hasSub (pat : List Char) : List Char → Bool
  | [] => pat.isEmpty
  | c :: rest => leadsWith pat (c :: rest) || hasSub pat rest

/-- Python's `pat in s` substring test on strings. -/
def strContains (s pat : String) : Bool := hasSub pat.toList s.toList

/-- The column-name pattern `f"{prefix}{l}M{m}{comp}"` that
`get_shcoeff_matrix_from_dataframe` searches for (`comp` is `"C"` or `"S"`). -/
def coeffPat (pre : String) (l m : ℕ) (comp : String) : String :=
  pre ++ toString l ++ "M" ++ toString m ++ comp

/-- The keys of `row` whose name contains `pat` as a substring:
`[f for f in row.keys() if pat in f]`. -/
def coeffMatches (row : Row) (pat : String) : Row :=
  row.filter (fun kv => strContains kv.fst pat)

/-- One `coeffs[c, l, m] = row[[...]]` assignment: it succeeds exactly when the
pattern matches one single column (a one-element selection assigns its value);
an empty or multi-element selection raises, which the `try/except: pass` turns
into "leave the entry at zero". -/
def coeffLookup (row : Row) (pat : String) : Option ℚ :=
  match coeffMatches row pat with
  | [kv] => some kv.snd
  | _ => none

/-- The cosine/sine pair the loop body of `get_shcoeff_matrix_from_dataframe`
stores for a given `(l, m)`.  Both assignments sit in one `try` block, so if
the cosine assignment raises (zero or several matching columns) the sine
assignment is never executed, even when the sine pattern would have matched
uniquely. -/
def coeffPair (row : Row) (pre : String) (l m : ℕ) : ℚ × ℚ :=
  match coeffLookup row (coeffPat pre l m "C") with
  | none => (0, 0)
  | some c =>
    match coeffLookup row (coeffPat pre l m "S") with
    | none => (c, 0)
    | some s => (c, s)

/-- Entry `[c, l, m]` of the coefficient matrix `np.zeros((2, lmax, lmax))`
after the fill loop `for l in range(lmax): for m in range(l + 1): ...`. -/
def coeffEntry (row : Row) (pre : String) (lmax c l m : ℕ) : ℚ :=
  if l < lmax ∧ m < lmax ∧ m ≤ l then
    (if c = 0 then (coeffPair row pre l m).fst else (coeffPair row pre l m).snd)
  else 0

/-- The full `2 × lmax × lmax` coefficient matrix, as nested lists. -/
def coeffMatrix (row : Row) (pre : String) (lmax : ℕ) : List (List (List ℚ)) :=
  (List.range 2).map (fun c =>
    (List.range lmax).map (fun l =>
      (List.range lmax).map (fun m => coeffEntry row pre lmax c l m)))

/-- `np.abs(coeffs).sum()` over the whole matrix. -/
def matrixAbsSum (mat : List (List (List ℚ))) : ℚ :=
  (mat.map (fun pl => (pl.map (fun r => (r.map (fun q => |q|)).sum)).sum)).sum

/-- `get_shcoeff_matrix_from_dataframe(row, prefix, lmax)`: builds the matrix
and raises `Exception("No coefficients found. ...")` when
`np.abs(coeffs).sum()` is zero. -/
def get_shcoeff_matrix_from_dataframe (row : Row) (pre : String) (lmax : ℕ) :
    Except Err (List (List (List ℚ))) :=
  if matrixAbsSum (coeffMatrix row pre lmax) = 0 then
    Except.error (Err.noCoefficientsFound pre)
  else Except.ok (coeffMatrix row pre lmax)

/-- A 3d point (one row of a `vtk` point array). -/
abbrev Pt := ℚ × ℚ × ℚ

def coord (p : Pt) : ℕ → ℚ
  | 0 => p.fst
  | 1 => p.snd.fst
  | _ => p.snd.snd

def setCoord (p : Pt) (i : ℕ) (v : ℚ) : Pt :=
  match i with
  | 0 => (v, p.snd.fst, p.snd.snd)
  | 1 => (p.fst, v, p.snd.snd)
  | _ => (p.fst, p.snd.fst, v)

/-- `ax = [a for a in [0, 1, 2] if a not in proj][0]`: the axis orthogonal to
the projection pair. -/
def axOf (proj : List ℕ) : ℕ :=
  (([0, 1, 2] : List ℕ).filter (fun a => a ∉ proj)).headD 0

/-- `points[:, proj]` for one point: its two projected coordinates. -/
def projPair (proj : List ℕ) (p : Pt) : ℚ × ℚ :=
  (coord p (proj.getD 0 0), coord p (proj.getD 1 0))

/-- Write a sorted 2d pair back into a point, `points[:, proj] = coords`,
leaving the third coordinate of that row untouched. -/
def writeProj (proj : List ℕ) (p : Pt) (q : ℚ × ℚ) : Pt :=
  setCoord (setCoord p (proj.getD 0 0) q.fst) (proj.getD 1 0) q.snd

/-- The clockwise-sorting tail of `find_plane_mesh_intersection`: project the
intersection points, compute their 2d centroid with
`reduce(op.add, coords) / len(coords)` (which raises `TypeError` on an empty
sequence), sort the projected pairs with Python's stable `sorted` under the
angle key, and write the sorted pairs back into the point rows.
The key `(-135 - degrees(atan2(dy, dx))) % 360` is transcendental, hence not
representable over ℚ; it enters as the parameter `key` (given the centroid and
a projected pair), and the claims proved below hold for every `key`. -/
def sortClockwise (key : ℚ × ℚ → ℚ × ℚ → ℚ) (proj : List ℕ) (pts : List Pt) :
    Except Err (List Pt) :=
  match pts with
  | [] => Except.error Err.reduceEmpty
  | _ :: _ =>
    let coords := pts.map (projPair proj)
    let center : ℚ × ℚ :=
      ((coords.map Prod.fst).sum / coords.length, (coords.map Prod.snd).sum / coords.length)
    let sortedCoords := List.insertionSort (fun a b => key center a ≤ key center b) coords
    Except.ok (List.zipWith (writeProj proj) pts sortedCoords)

/-- `find_plane_mesh_intersection(proj, mesh)`.  The mesh is its list of
points; the degenerate-plane check `if not np.abs(points[:, ax]).sum()` comes
first, before any plane is built.  Everything between the check and the
clockwise sort (plane construction, triangulation, and
`vtkIntersectionPolyDataFilter`) is external VTK code; it enters the embedding
as the parameter `inter`, mapping the mesh points to the intersection points. -/
def find_plane_mesh_intersection (inter : List Pt → List Pt)
    (key : ℚ × ℚ → ℚ × ℚ → ℚ) (proj : List ℕ) (meshPts : List Pt) :
    Except Err (List Pt) :=
  let ax := axOf proj
  if (meshPts.map (fun p => |coord p ax|)).sum = 0 then
    Except.error Err.degeneratePlane
  else
    sortClockwise key proj (inter meshPts)

/-- `mesh.GetBounds()`: `(xmin, xmax, ymin, ymax, zmin, zmax)` of a point set. -/
def listMin (l : List ℚ) : ℚ :=
  match l with
  | [] => 0
  | x :: xs => xs.foldl min x

def listMax (l : List ℚ) : ℚ :=
  match l with
  | [] => 0
  | x :: xs => xs.foldl max x

def meshBounds (pts : List Pt) : ℚ × ℚ × ℚ × ℚ × ℚ × ℚ :=
  (listMin (pts.map (fun p => coord p 0)), listMax (pts.map (fun p => coord p 0)),
   listMin (pts.map (fun p => coord p 1)), listMax (pts.map (fun p => coord p 1)),
   listMin (pts.map (fun p => coord p 2)), listMax (pts.map (fun p => coord p 2)))

abbrev Bounds := ℚ × ℚ × ℚ × ℚ × ℚ × ℚ

/-- `get_mesh_from_dataframe(row, prefix, lmax)`: build the coefficient matrix
(possibly raising `NoCoefficientsFound`) and hand it to
`shtools.get_reconstruction_from_coeffs`.  The `aicsshparam` reconstruction is
external; it enters as the parameter `recon`, mapping a coefficient matrix to
the reconstructed mesh's points. -/
def get_mesh_from_dataframe (recon : List (List (List ℚ)) → List Pt)
    (row : Row) (pre : String) (lmax : ℕ) : Except Err (List Pt) :=
  (get_shcoeff_matrix_from_dataframe row pre lmax).map recon

/-- The loop body of `get_contours_of_consecutive_reconstructions` for one
row: reconstruct the mesh, intersect it with the projection plane, and take
the mesh bounds.  Any exception propagates. -/
def processRow (recon : List (List (List ℚ)) → List Pt) (inter : List Pt → List Pt)
    (key : ℚ × ℚ → ℚ × ℚ → ℚ) (pre : String) (proj : List ℕ) (lmax : ℕ) (row : Row) :
    Except Err (List Pt × List Pt × Bounds) := do
  let mesh ← get_mesh_from_dataframe recon row pre lmax
  let contour ← find_plane_mesh_intersection inter key proj mesh
  pure (contour, mesh, meshBounds mesh)

/-- `get_contours_of_consecutive_reconstructions(df, prefix, proj, lmax)`:
`for index, row in df.iterrows()` accumulating `(contours, meshes, limits)`.
There is no `try/except` around the body, so the first exception aborts the
whole loop and the lists built so far are lost.  (The function's initial
`df.set_index("bin")` only moves the `bin` column into the index and does not
affect the per-row computation; rows are passed here as they are iterated.) -/
def get_contours_of_consecutive_reconstructions
    (recon : List (List (List ℚ)) → List Pt) (inter : List Pt → List Pt)
    (key : ℚ × ℚ → ℚ × ℚ → ℚ) (rows : List Row) (pre : String) (proj : List ℕ)
    (lmax : ℕ) : Except Err (List (List Pt) × List (List Pt) × List Bounds) :=
  match rows with
  | [] => Except.ok ([], [], [])
  | r :: rest => do
    let head ← processRow recon inter key pre proj lmax r
    let tail ← get_contours_of_consecutive_reconstructions recon inter key rest pre proj lmax
    pure (head.fst :: tail.fst, head.snd.fst :: tail.snd.fst, head.snd.snd :: tail.snd.snd)

/-- The rotation matrix of `transform_coords_to_mem_space`, with `c`/`s` the
cosine and sine of the alignment angle. -/
def rot_mx (c s : ℚ) : List (List ℚ) := [[c, s, 0], [-s, c, 0], [0, 0, 1]]

/-- `np.matmul` of a matrix with a vector. -/
def matVec (mx : List (List ℚ)) (v : List ℚ) : List ℚ :=
  mx.map (fun mrow => (List.zipWith (fun a b => a * b) mrow v).sum)

/-- `transform_coords_to_mem_space(xo, yo, zo, angle, cm)`: rotate the
centroid difference `(xo, yo, zo) - cm` by the alignment-angle rotation about
the z-axis.  The angle is given in degrees and the code computes
`cos(pi * angle / 180)` / `sin(pi * angle / 180)`; those two transcendental
functions of the degree value enter as the parameters `cosD`/`sinD`. -/
def transform_coords_to_mem_space (cosD sinD : ℚ → ℚ)
    (xo yo zo angle : ℚ) (cm : List ℚ) : ℚ × ℚ × ℚ :=
  let pt_rot := matVec (rot_mx (cosD angle) (sinD angle))
    [xo - cm.getD 0 0, yo - cm.getD 1 0, zo - cm.getD 2 0]
  (pt_rot.getD 0 0, pt_rot.getD 1 0, pt_rot.getD 2 0)

/-- `process_this_index` of `animate_shape_modes_and_save_meshes`: re-express
one cell's nuclear centroid in the cell's aligned frame. -/
def process_this_index (cosD sinD : ℚ → ℚ) (r : Row) : ℚ × ℚ × ℚ :=
  transform_coords_to_mem_space cosD sinD
    (rowVal r "dna_position_x_centroid_lcc")
    (rowVal r "dna_position_y_centroid_lcc")
    (rowVal r "dna_position_z_centroid_lcc")
    (rowVal r "mem_shcoeffs_transform_angle_lcc")
    [rowVal r "mem_position_x_centroid_lcc",
     rowVal r "mem_position_y_centroid_lcc",
     rowVal r "mem_position_z_centroid_lcc"]

/-- `np.array(triples).mean(axis=0)`: the componentwise mean. -/
def meanTriple (l : List (ℚ × ℚ × ℚ)) : ℚ × ℚ × ℚ :=
  ((l.map (fun t => t.fst)).sum / l.length,
   (l.map (fun t => t.snd.fst)).sum / l.length,
   (l.map (fun t => t.snd.snd)).sum / l.length)

/-- The rows of `df` whose index is in `indexes`:
`df.loc[df.index.isin(indexes)]`. -/
def rowsInBin (df : List (ℕ × Row)) (indexes : List ℕ) : List (ℕ × Row) :=
  df.filter (fun ir => ir.fst ∈ indexes)

/-- The nuclear-offset pass of `animate_shape_modes_and_save_meshes`: for each
`(b, indexes)` in `bin_indexes`, when `fix_nuclear_position` is set, store in
`df_agg.loc[b, ["dna_dxc", "dna_dyc", "dna_dzc"]]` the mean over the bin's
cells of the transformed nuclear centroid; when it is not set, store zeros.
The result lists the stored `(b, (dxc, dyc, dzc))` in bin order. -/
def nuclearOffsets (cosD sinD : ℚ → ℚ) (fix_nuclear_position : Bool)
    (df : List (ℕ × Row)) (bin_indexes : List (ℕ × List ℕ)) :
    List (ℕ × (ℚ × ℚ × ℚ)) :=
  bin_indexes.map (fun bi =>
    (bi.fst,
     if fix_nuclear_position then
       meanTriple ((rowsInBin df bi.snd).map (fun ir => process_this_index cosD sinD ir.snd))
     else (0, 0, 0)))

/-- `(LSUP - LINF) / (nbins - 1)`: the spacing of `np.linspace(-2, 2, nbins)`. -/
def stepQ (n : ℕ) : ℚ := (2 - (-2)) / ((n : ℚ) - 1)

/-- Closed form of the `j`-th deduplicated bin edge (before the ±inf
replacement): `bin_centers[0] - binw + j * step`. -/
def edgeAt (n j : ℕ) : ℚ := -2 - binw n + j * stepQ n

/-- The per-feature violation test of the marking loop: the row's value on `f`
is strictly below the `pct`-th or strictly above the `(100-pct)`-th percentile
of the column. -/
def violB (df : DF) (pct : ℚ) (f : String) (r : Row) : Bool :=
  rowVal r f < percentile (colVals df f) pct ∨
    percentile (colVals df f) (100 - pct) < rowVal r f

/-- A dataframe whose rows carry the temporary `extreme` flag column with the
given marks: the canonical shape of the dataframe threaded through the marking
loop (for inputs that do not already have an `extreme` column). -/
def markedDF (df : DF) (marks : List Bool) : DF :=
  { cols := df.cols ++ ["extreme"],
    rows := (df.rows.zip marks).map (fun p =>
      (p.fst.fst, p.fst.snd ++ [("extreme", if p.snd then (1 : ℚ) else 0)])) }

/-- `Except` success as a `Bool`. -/
def exOk {α : Type} : Except Err α → Bool
  | Except.ok _ => true
  | Except.error _ => false

/-- Payload extractors used to state concrete counterexamples (equality of
`Except` values is not decidable, but equality of the extracted payloads is). -/
def okRowsD : Except Err DF → Option (List (ℕ × Row))
  | Except.ok res => some res.rows
  | Except.error _ => none

def okFirstD : Except Err DigitizeOut → Option DF
  | Except.ok out => some out.first
  | Except.error _ => none

theorem sum_abs_eq_zero_iff (l : List ℚ) :
    (l.map (fun q => |q|)).sum = 0 ↔ ∀ q ∈ l, q = 0 := by
  induction l with
  | nil => simp
  | cons x xs ih =>
    simp only [List.map_cons, List.sum_cons]
    rw [add_eq_zero_iff_of_nonneg (abs_nonneg x)
      (List.sum_nonneg (by intro y hy; rcases List.mem_map.mp hy with ⟨q, _, rfl⟩; exact abs_nonneg q))]
    simp [abs_eq_zero, ih]

/-- C4: `find_plane_mesh_intersection` raises its degenerate-plane error
exactly when every mesh point's coordinate along the axis orthogonal to the
projection is zero, and on that error path the result does not depend on the
downstream plane/intersection computation (`inter`) or the sort key — the
check happens before any plane construction, so no partial work occurs. -/
theorem find_plane_mesh_intersection_degenerate_iff
    (inter : List Pt → List Pt) (key : ℚ × ℚ → ℚ × ℚ → ℚ)
    (proj : List ℕ) (meshPts : List Pt)
    (hproj : proj ∈ ([[0, 1], [0, 2], [1, 2]] : List (List ℕ))) :
    (find_plane_mesh_intersection inter key proj meshPts = Except.error Err.degeneratePlane
      ↔ ∀ p ∈ meshPts, coord p (axOf proj) = 0) ∧
    ((∀ p ∈ meshPts, coord p (axOf proj) = 0) →
      ∀ (inter2 : List Pt → List Pt) (key2 : ℚ × ℚ → ℚ × ℚ → ℚ),
        find_plane_mesh_intersection inter key proj meshPts =
          find_plane_mesh_intersection inter2 key2 proj meshPts) := by
  have hiff : (meshPts.map (fun p => |coord p (axOf proj)|)).sum = 0 ↔
      ∀ p ∈ meshPts, coord p (axOf proj) = 0 := by
    have h1 : meshPts.map (fun p => |coord p (axOf proj)|) =
        (meshPts.map (fun p => coord p (axOf proj))).map (fun q => |q|) := by
      rw [List.map_map]; rfl
    rw [h1, sum_abs_eq_zero_iff]
    constructor
    · intro h p hp
      exact h _ (List.mem_map.mpr ⟨p, hp, rfl⟩)
    · intro h q hq
      rcases List.mem_map.mp hq with ⟨p, hp, rfl⟩
      exact h p hp
  constructor
  · constructor
    · intro hc
      by_contra hnz
      have hsum : (meshPts.map (fun p => |coord p (axOf proj)|)).sum ≠ 0 :=
        fun h => hnz (hiff.mp h)
      have heq : find_plane_mesh_intersection inter key proj meshPts =
          sortClockwise key proj (inter meshPts) := by
        simp only [find_plane_mesh_intersection, if_neg hsum]
      rw [heq] at hc
      cases hi : inter meshPts with
      | nil => rw [hi] at hc; simp [sortClockwise] at hc
      | cons a as => rw [hi] at hc; simp [sortClockwise] at hc
    · intro hall
      have h := hiff.mpr hall
      simp only [find_plane_mesh_intersection, if_pos h]
  · intro hall inter2 key2
    have h := hiff.mpr hall
    simp only [find_plane_mesh_intersection, if_pos h]

theorem find_plane_mesh_intersection_degenerate_iff_witness :
    (([0, 1] : List ℕ) ∈ ([[0, 1], [0, 2], [1, 2]] : List (List ℕ))) ∧
    ((find_plane_mesh_intersection id (fun _ _ => 0) [0, 1] [((1 : ℚ), (2 : ℚ), (3 : ℚ))] =
        Except.error Err.degeneratePlane
      ↔ ∀ p ∈ [((1 : ℚ), (2 : ℚ), (3 : ℚ))], coord p (axOf [0, 1]) = 0) ∧
    ((∀ p ∈ [((1 : ℚ), (2 : ℚ), (3 : ℚ))], coord p (axOf [0, 1]) = 0) →
      ∀ (inter2 : List Pt → List Pt) (key2 : ℚ × ℚ → ℚ × ℚ → ℚ),
        find_plane_mesh_intersection id (fun _ _ => 0) [0, 1] [((1 : ℚ), (2 : ℚ), (3 : ℚ))] =
          find_plane_mesh_intersection inter2 key2 [0, 1] [((1 : ℚ), (2 : ℚ), (3 : ℚ))])) :=
  ⟨by decide,
   find_plane_mesh_intersection_degenerate_iff id (fun _ _ => 0) [0, 1]
     [((1 : ℚ), (2 : ℚ), (3 : ℚ))] (by decide)⟩

theorem map_zipWith_keep (f : Pt → (ℚ × ℚ) → Pt) (g : Pt → ℚ)
    (h : ∀ p q, g (f p q) = g p) :
    ∀ (ps : List Pt) (qs : List (ℚ × ℚ)), ps.length = qs.length →
      (List.zipWith f ps qs).map g = ps.map g := by
  intro ps
  induction ps with
  | nil => intro qs _; simp
  | cons p ps ih =>
    intro qs hlen
    cases qs with
    | nil => simp at hlen
    | cons q qs =>
      simp only [List.zipWith_cons_cons, List.map_cons, h]
      rw [ih qs (by simpa using hlen)]

theorem map_zipWith_right (f : Pt → (ℚ × ℚ) → Pt) (g : Pt → ℚ × ℚ)
    (h : ∀ p q, g (f p q) = q) :
    ∀ (ps : List Pt) (qs : List (ℚ × ℚ)), ps.length = qs.length →
      (List.zipWith f ps qs).map g = qs := by
  intro ps
  induction ps with
  | nil => intro qs hlen; cases qs with
    | nil => simp
    | cons q qs => simp at hlen
  | cons p ps ih =>
    intro qs hlen
    cases qs with
    | nil => simp at hlen
    | cons q qs =>
      simp only [List.zipWith_cons_cons, List.map_cons, h]
      rw [ih qs (by simpa using hlen)]

/-- C10: the clockwise sorting step of `find_plane_mesh_intersection`
(modelled by `sortClockwise`, with the transcendental angle key abstracted)
permutes only the two projected coordinate columns: for every key, the output
has one row per intersection point, each row's coordinate along the orthogonal
axis stays in its original row position, and the multiset of projected 2d
points is preserved (so an output row pairs sorted in-plane coordinates with
the orthogonal coordinate of a possibly different intersection point). -/
theorem sortClockwise_spec (key : ℚ × ℚ → ℚ × ℚ → ℚ) (proj : List ℕ) (pts : List Pt)
    (hproj : proj ∈ ([[0, 1], [0, 2], [1, 2]] : List (List ℕ))) (hne : pts ≠ []) :
    ∃ out, sortClockwise key proj pts = Except.ok out ∧
      out.length = pts.length ∧
      out.map (fun p => coord p (axOf proj)) = pts.map (fun p => coord p (axOf proj)) ∧
      (out.map (projPair proj)).Perm (pts.map (projPair proj)) := by
  have hkeep : ∀ p q, coord (writeProj proj p q) (axOf proj) = coord p (axOf proj) := by
    simp only [List.mem_cons, List.not_mem_nil, or_false] at hproj
    rcases hproj with rfl | rfl | rfl
    · intro p q; rfl
    · intro p q; rfl
    · intro p q; rfl
  have hback : ∀ p q, projPair proj (writeProj proj p q) = q := by
    simp only [List.mem_cons, List.not_mem_nil, or_false] at hproj
    rcases hproj with rfl | rfl | rfl
    · intro p q; rfl
    · intro p q; rfl
    · intro p q; rfl
  cases pts with
  | nil => exact absurd rfl hne
  | cons p ps =>
    set coords := (p :: ps).map (projPair proj) with hcoords
    set center : ℚ × ℚ :=
      ((coords.map Prod.fst).sum / coords.length, (coords.map Prod.snd).sum / coords.length)
      with hcenter
    set sorted := List.insertionSort (fun a b => key center a ≤ key center b) coords
      with hsorted
    have hperm : sorted.Perm coords := List.perm_insertionSort _ coords
    have hlen : (p :: ps).length = sorted.length := by
      rw [hperm.length_eq]
      simp [hcoords]
    refine ⟨List.zipWith (writeProj proj) (p :: ps) sorted, rfl, ?_, ?_, ?_⟩
    · rw [List.length_zipWith, ← hlen, min_self]
    · exact map_zipWith_keep _ _ hkeep _ _ hlen
    · rw [map_zipWith_right _ _ hback _ _ hlen]
      exact hperm

theorem sortClockwise_spec_witness :
    (([0, 1] : List ℕ) ∈ ([[0, 1], [0, 2], [1, 2]] : List (List ℕ))) ∧
    ([((1 : ℚ), (2 : ℚ), (3 : ℚ)), ((4 : ℚ), (5 : ℚ), (6 : ℚ))] ≠ ([] : List Pt)) ∧
    (∃ out, sortClockwise (fun _ _ => 0) [0, 1]
        [((1 : ℚ), (2 : ℚ), (3 : ℚ)), ((4 : ℚ), (5 : ℚ), (6 : ℚ))] = Except.ok out ∧
      out.length = [((1 : ℚ), (2 : ℚ), (3 : ℚ)), ((4 : ℚ), (5 : ℚ), (6 : ℚ))].length ∧
      out.map (fun p => coord p (axOf [0, 1])) =
        [((1 : ℚ), (2 : ℚ), (3 : ℚ)), ((4 : ℚ), (5 : ℚ), (6 : ℚ))].map
          (fun p => coord p (axOf [0, 1])) ∧
      (out.map (projPair [0, 1])).Perm
        ([((1 : ℚ), (2 : ℚ), (3 : ℚ)), ((4 : ℚ), (5 : ℚ), (6 : ℚ))].map (projPair [0, 1]))) :=
  ⟨by decide, by decide,
   sortClockwise_spec (fun _ _ => 0) [0, 1]
     [((1 : ℚ), (2 : ℚ), (3 : ℚ)), ((4 : ℚ), (5 : ℚ), (6 : ℚ))] (by decide) (by decide)⟩

theorem bind_error_eq {α β : Type} (e : Err) (f : α → Except Err β) :
    ((Except.error e : Except Err α) >>= f) = Except.error e := rfl

theorem bind_ok_eq {α β : Type} (a : α) (f : α → Except Err β) :
    ((Except.ok a : Except Err α) >>= f) = f a := rfl

/-- C5 counterexample: two bins whose rows both carry a nonzero coefficient;
the (external) reconstruction returns for every bin the same mesh, all of
whose points have `z = 0`, so the first bin's plane intersection raises the
degenerate-plane error.  The driver loop of
`get_contours_of_consecutive_reconstructions` has no `try/except`; the whole
call raises, and no contour, mesh or limit is produced for the second
(perfectly fine) bin — the failing bin is not skipped, not flagged, and the
other bin is not processed. -/
theorem get_contours_aborts_cex :
    get_contours_of_consecutive_reconstructions
      (fun _ => [((1 : ℚ), (1 : ℚ), (0 : ℚ))]) id (fun _ _ => 0)
      [[("mem_shcoeffs_L0M0C", (1 : ℚ))], [("mem_shcoeffs_L0M0C", (1 : ℚ))]]
      "mem_shcoeffs_L" [0, 1] 1 = Except.error Err.degeneratePlane := by
  with_unfolding_all rfl

/-- C5 (amended): a single row's reconstruction or intersection failure aborts
`get_contours_of_consecutive_reconstructions` for all rows: the call succeeds
iff the per-row pipeline succeeds on every row, so after any one failure no
per-bin outputs are returned at all (rather than the failing bin being skipped
and the remaining bins processed). -/
theorem get_contours_ok_iff
    (recon : List (List (List ℚ)) → List Pt) (inter : List Pt → List Pt)
    (key : ℚ × ℚ → ℚ × ℚ → ℚ) (rows : List Row) (pre : String) (proj : List ℕ)
    (lmax : ℕ) :
    exOk (get_contours_of_consecutive_reconstructions recon inter key rows pre proj lmax) = true
      ↔ ∀ r ∈ rows, exOk (processRow recon inter key pre proj lmax r) = true := by
  induction rows with
  | nil => simp [get_contours_of_consecutive_reconstructions, exOk]
  | cons r rest ih =>
    simp only [get_contours_of_consecutive_reconstructions]
    cases hp : processRow recon inter key pre proj lmax r with
    | error e =>
      simp only [bind_error_eq]
      constructor
      · intro hcontra; simp [exOk] at hcontra
      · intro hall
        have h1 := hall r (List.mem_cons_self r rest)
        rw [hp] at h1
        simp [exOk] at h1
    | ok v =>
      simp only [bind_ok_eq]
      cases hrec : get_contours_of_consecutive_reconstructions recon inter key rest pre proj lmax with
      | error e2 =>
        simp only [bind_error_eq]
        rw [hrec] at ih
        constructor
        · intro hcontra; simp [exOk] at hcontra
        · intro hall
          have h2 : ∀ r' ∈ rest, exOk (processRow recon inter key pre proj lmax r') = true :=
            fun r' hr' => hall r' (List.mem_cons_of_mem _ hr')
          have h3 := ih.mpr h2
          simp [exOk] at h3
      | ok w =>
        simp only [bind_ok_eq]
        rw [hrec] at ih
        constructor
        · intro _ r' hr'
          rcases List.mem_cons.mp hr' with rfl | hr'
          · rw [hp]; rfl
          · exact ih.mp rfl r' hr'
        · intro _; rfl

theorem sum_eq_zero_iff_nonneg (l : List ℚ) (h : ∀ x ∈ l, 0 ≤ x) :
    l.sum = 0 ↔ ∀ x ∈ l, x = 0 := by
  induction l with
  | nil => simp
  | cons x xs ih =>
    simp only [List.sum_cons]
    rw [add_eq_zero_iff_of_nonneg (h x (List.mem_cons_self x xs))
      (List.sum_nonneg (fun y hy => h y (List.mem_cons_of_mem x hy)))]
    rw [ih (fun y hy => h y (List.mem_cons_of_mem x hy))]
    simp [List.forall_mem_cons]

theorem matrixAbsSum_eq_zero_iff (mat : List (List (List ℚ))) :
    matrixAbsSum mat = 0 ↔ ∀ pl ∈ mat, ∀ rr ∈ pl, ∀ q ∈ rr, q = 0 := by
  unfold matrixAbsSum
  rw [sum_eq_zero_iff_nonneg]
  · constructor
    · intro h pl hpl rr hrr q hq
      have h1 := h _ (List.mem_map.mpr ⟨pl, hpl, rfl⟩)
      have h2 := (sum_eq_zero_iff_nonneg _ (by
        intro y hy
        rcases List.mem_map.mp hy with ⟨rr', _, rfl⟩
        exact List.sum_nonneg (fun z hz => by
          rcases List.mem_map.mp hz with ⟨q', _, rfl⟩
          exact abs_nonneg q'))).mp h1
      have h3 := h2 _ (List.mem_map.mpr ⟨rr, hrr, rfl⟩)
      have h4 := (sum_abs_eq_zero_iff rr).mp h3
      exact h4 q hq
    · intro h y hy
      rcases List.mem_map.mp hy with ⟨pl, hpl, rfl⟩
      rw [sum_eq_zero_iff_nonneg]
      · intro z hz
        rcases List.mem_map.mp hz with ⟨rr, hrr, rfl⟩
        exact (sum_abs_eq_zero_iff rr).mpr (fun q hq => h pl hpl rr hrr q hq)
      · intro z hz
        rcases List.mem_map.mp hz with ⟨rr, _, rfl⟩
        exact List.sum_nonneg (fun w hw => by
          rcases List.mem_map.mp hw with ⟨q', _, rfl⟩
          exact abs_nonneg q')
  · intro y hy
    rcases List.mem_map.mp hy with ⟨pl, _, rfl⟩
    exact List.sum_nonneg (fun z hz => by
      rcases List.mem_map.mp hz with ⟨rr, _, rfl⟩
      exact List.sum_nonneg (fun w hw => by
        rcases List.mem_map.mp hw with ⟨q', _, rfl⟩
        exact abs_nonneg q'))

theorem coeffPair_fst (row : Row) (pre : String) (l m : ℕ) (kv : String × ℚ)
    (hC : coeffMatches row (coeffPat pre l m "C") = [kv]) :
    (coeffPair row pre l m).fst = kv.snd := by
  have hc : coeffLookup row (coeffPat pre l m "C") = some kv.snd := by
    unfold coeffLookup; rw [hC]
  unfold coeffPair
  rw [hc]
  cases coeffLookup row (coeffPat pre l m "S") <;> rfl

theorem coeffPair_snd (row : Row) (pre : String) (l m : ℕ) (kvc kvs : String × ℚ)
    (hC : coeffMatches row (coeffPat pre l m "C") = [kvc])
    (hS : coeffMatches row (coeffPat pre l m "S") = [kvs]) :
    (coeffPair row pre l m).snd = kvs.snd := by
  have hc : coeffLookup row (coeffPat pre l m "C") = some kvc.snd := by
    unfold coeffLookup; rw [hC]
  have hs : coeffLookup row (coeffPat pre l m "S") = some kvs.snd := by
    unfold coeffLookup; rw [hS]
  unfold coeffPair
  rw [hc, hs]

theorem coeffPair_of_no_cos (row : Row) (pre : String) (l m : ℕ)
    (hC : coeffMatches row (coeffPat pre l m "C") = []) :
    coeffPair row pre l m = (0, 0) := by
  have hc : coeffLookup row (coeffPat pre l m "C") = none := by
    unfold coeffLookup; rw [hC]
  unfold coeffPair
  rw [hc]

/-- C3: `get_shcoeff_matrix_from_dataframe` returns a `2 × lmax × lmax` matrix
in which `[0,l,m]` holds the cosine and `[1,l,m]` the sine coefficient of the
uniquely matched `(l,m)` columns with `0 ≤ m ≤ l`, every `(l,m)` pair whose
cosine pattern matches no column — including all `m > l` — is zero without
raising, and the call raises `NoCoefficientsFound` if and only if the
resulting matrix is entirely zero; in particular it raises whenever the prefix
matches zero columns. -/
theorem get_shcoeff_matrix_spec (row : Row) (pre : String) (lmax : ℕ) (hl : 1 ≤ lmax) :
    (∀ mat, get_shcoeff_matrix_from_dataframe row pre lmax = Except.ok mat →
      mat.length = 2 ∧ ∀ pl ∈ mat, pl.length = lmax ∧ ∀ rr ∈ pl, rr.length = lmax) ∧
    (∀ l m kv, m ≤ l → l < lmax →
      coeffMatches row (coeffPat pre l m "C") = [kv] →
      coeffEntry row pre lmax 0 l m = kv.snd) ∧
    (∀ l m kvc kvs, m ≤ l → l < lmax →
      coeffMatches row (coeffPat pre l m "C") = [kvc] →
      coeffMatches row (coeffPat pre l m "S") = [kvs] →
      coeffEntry row pre lmax 1 l m = kvs.snd) ∧
    (∀ l m, coeffMatches row (coeffPat pre l m "C") = [] →
      coeffEntry row pre lmax 0 l m = 0 ∧ coeffEntry row pre lmax 1 l m = 0) ∧
    (∀ c l m, l < m → coeffEntry row pre lmax c l m = 0) ∧
    (exOk (get_shcoeff_matrix_from_dataframe row pre lmax) = false ↔
      ∀ c l m, c < 2 → l < lmax → m < lmax → coeffEntry row pre lmax c l m = 0) ∧
    ((∀ k ∈ rowKeys row, ∀ l m, l < lmax → m ≤ l →
        strContains k (coeffPat pre l m "C") = false ∧
        strContains k (coeffPat pre l m "S") = false) →
      get_shcoeff_matrix_from_dataframe row pre lmax =
        Except.error (Err.noCoefficientsFound pre)) := by
  have habs_iff : matrixAbsSum (coeffMatrix row pre lmax) = 0 ↔
      ∀ c l m, c < 2 → l < lmax → m < lmax → coeffEntry row pre lmax c l m = 0 := by
    rw [matrixAbsSum_eq_zero_iff]
    constructor
    · intro h c l m hc hlm hm
      exact h _ (List.mem_map.mpr ⟨c, List.mem_range.mpr hc, rfl⟩)
        _ (List.mem_map.mpr ⟨l, List.mem_range.mpr hlm, rfl⟩)
        _ (List.mem_map.mpr ⟨m, List.mem_range.mpr hm, rfl⟩)
    · intro h pl hpl rr hrr q hq
      rcases List.mem_map.mp hpl with ⟨c, hc, rfl⟩
      rcases List.mem_map.mp hrr with ⟨l, hlm, rfl⟩
      rcases List.mem_map.mp hq with ⟨m, hm, rfl⟩
      exact h c l m (List.mem_range.mp hc) (List.mem_range.mp hlm) (List.mem_range.mp hm)
  refine ⟨?_, ?_, ?_, ?_, ?_, ?_, ?_⟩
  · intro mat hmat
    unfold get_shcoeff_matrix_from_dataframe at hmat
    split at hmat
    · cases hmat
    · cases hmat
      refine ⟨by simp [coeffMatrix], ?_⟩
      intro pl hpl
      unfold coeffMatrix at hpl
      rcases List.mem_map.mp hpl with ⟨c, _, rfl⟩
      refine ⟨by simp, ?_⟩
      intro rr hrr
      rcases List.mem_map.mp hrr with ⟨l, _, rfl⟩
      simp
  · intro l m kv hml hlm hC
    have hcond : l < lmax ∧ m < lmax ∧ m ≤ l := ⟨hlm, lt_of_le_of_lt hml hlm, hml⟩
    unfold coeffEntry
    rw [if_pos hcond, if_pos rfl]
    exact coeffPair_fst row pre l m kv hC
  · intro l m kvc kvs hml hlm hC hS
    have hcond : l < lmax ∧ m < lmax ∧ m ≤ l := ⟨hlm, lt_of_le_of_lt hml hlm, hml⟩
    unfold coeffEntry
    rw [if_pos hcond, if_neg (by decide : ¬ (1 : ℕ) = 0)]
    exact coeffPair_snd row pre l m kvc kvs hC hS
  · intro l m hC
    constructor
    · unfold coeffEntry
      split
      · rw [if_pos rfl, coeffPair_of_no_cos row pre l m hC]
      · rfl
    · unfold coeffEntry
      split
      · rw [if_neg (by decide : ¬ (1 : ℕ) = 0), coeffPair_of_no_cos row pre l m hC]
      · rfl
  · intro c l m hlt
    unfold coeffEntry
    rw [if_neg]
    intro hcond
    exact absurd hcond.2.2 (not_le.mpr hlt)
  · unfold get_shcoeff_matrix_from_dataframe
    split
    · rename_i habs
      simp only [exOk]
      rw [← habs_iff]
      exact ⟨fun _ => habs, fun _ => trivial⟩
    · rename_i habs
      simp only [exOk]
      constructor
      · intro hcontra; cases hcontra
      · intro hall
        exact absurd (habs_iff.mpr hall) habs
  · intro hnone
    have hzero : ∀ c l m, c < 2 → l < lmax → m < lmax → coeffEntry row pre lmax c l m = 0 := by
      intro c l m _ hlm hm
      unfold coeffEntry
      split
      · rename_i hcond
        have hC : coeffMatches row (coeffPat pre l m "C") = [] := by
          unfold coeffMatches
          rw [List.filter_eq_nil_iff]
          intro kv hkv
          have := (hnone kv.fst (List.mem_map.mpr ⟨kv, hkv, rfl⟩) l m hcond.1 hcond.2.2).1
          simp [this]
        have := coeffPair_of_no_cos row pre l m hC
        rw [this]
        split <;> rfl
      · rfl
    have habs : matrixAbsSum (coeffMatrix row pre lmax) = 0 := habs_iff.mpr hzero
    unfold get_shcoeff_matrix_from_dataframe
    rw [if_pos habs]

theorem get_shcoeff_matrix_spec_witness :
    (1 ≤ 1) ∧
    ((∀ mat, get_shcoeff_matrix_from_dataframe [("L0M0C", (3 : ℚ))] "L" 1 = Except.ok mat →
      mat.length = 2 ∧ ∀ pl ∈ mat, pl.length = 1 ∧ ∀ rr ∈ pl, rr.length = 1) ∧
    (∀ l m kv, m ≤ l → l < 1 →
      coeffMatches [("L0M0C", (3 : ℚ))] (coeffPat "L" l m "C") = [kv] →
      coeffEntry [("L0M0C", (3 : ℚ))] "L" 1 0 l m = kv.snd) ∧
    (∀ l m kvc kvs, m ≤ l → l < 1 →
      coeffMatches [("L0M0C", (3 : ℚ))] (coeffPat "L" l m "C") = [kvc] →
      coeffMatches [("L0M0C", (3 : ℚ))] (coeffPat "L" l m "S") = [kvs] →
      coeffEntry [("L0M0C", (3 : ℚ))] "L" 1 1 l m = kvs.snd) ∧
    (∀ l m, coeffMatches [("L0M0C", (3 : ℚ))] (coeffPat "L" l m "C") = [] →
      coeffEntry [("L0M0C", (3 : ℚ))] "L" 1 0 l m = 0 ∧
      coeffEntry [("L0M0C", (3 : ℚ))] "L" 1 1 l m = 0) ∧
    (∀ c l m, l < m → coeffEntry [("L0M0C", (3 : ℚ))] "L" 1 c l m = 0) ∧
    (exOk (get_shcoeff_matrix_from_dataframe [("L0M0C", (3 : ℚ))] "L" 1) = false ↔
      ∀ c l m, c < 2 → l < 1 → m < 1 → coeffEntry [("L0M0C", (3 : ℚ))] "L" 1 c l m = 0) ∧
    ((∀ k ∈ rowKeys [("L0M0C", (3 : ℚ))], ∀ l m, l < 1 → m ≤ l →
        strContains k (coeffPat "L" l m "C") = false ∧
        strContains k (coeffPat "L" l m "S") = false) →
      get_shcoeff_matrix_from_dataframe [("L0M0C", (3 : ℚ))] "L" 1 =
        Except.error (Err.noCoefficientsFound "L"))) :=
  ⟨by decide, get_shcoeff_matrix_spec [("L0M0C", (3 : ℚ))] "L" 1 (by decide)⟩

theorem transform_eval (cosD sinD : ℚ → ℚ) (xo yo zo angle cx cy cz : ℚ) :
    transform_coords_to_mem_space cosD sinD xo yo zo angle [cx, cy, cz] =
      (cosD angle * (xo - cx) + sinD angle * (yo - cy),
       -sinD angle * (xo - cx) + cosD angle * (yo - cy),
       zo - cz) := by
  simp only [transform_coords_to_mem_space, matVec, rot_mx, List.zipWith, List.sum_cons,
    List.sum_nil, List.map_cons, List.map_nil, List.getD, List.get?, Option.getD,
    Prod.mk.injEq]
  refine ⟨by ring, by ring, by ring⟩

/-- C6: in the nuclear-position pass of `animate_shape_modes_and_save_meshes`,
when `fix_nuclear_position` is enabled, the stored per-bin offset
`(dna_dxc, dna_dyc, dna_dzc)` equals the mean, over the cells of that bin, of
the nuclear centroid re-expressed in the cell's aligned frame — the rotation
matrix of `transform_coords_to_mem_space` (with `cosD`/`sinD` the cosine/sine
of the per-cell alignment angle in degrees) applied to nuclear minus cell
centroid, whose z component is the plain centroid difference; when the option
is disabled the stored offset is exactly `(0, 0, 0)` for every bin. -/
theorem nuclearOffsets_spec (cosD sinD : ℚ → ℚ) (df : List (ℕ × Row))
    (bin_indexes : List (ℕ × List ℕ)) :
    (∀ b idxs, (b, idxs) ∈ bin_indexes → rowsInBin df idxs ≠ [] →
      (b,
       (((rowsInBin df idxs).map (fun ir =>
           cosD (rowVal ir.snd "mem_shcoeffs_transform_angle_lcc") *
             (rowVal ir.snd "dna_position_x_centroid_lcc" -
              rowVal ir.snd "mem_position_x_centroid_lcc") +
           sinD (rowVal ir.snd "mem_shcoeffs_transform_angle_lcc") *
             (rowVal ir.snd "dna_position_y_centroid_lcc" -
              rowVal ir.snd "mem_position_y_centroid_lcc"))).sum /
          (rowsInBin df idxs).length,
        ((rowsInBin df idxs).map (fun ir =>
           -sinD (rowVal ir.snd "mem_shcoeffs_transform_angle_lcc") *
             (rowVal ir.snd "dna_position_x_centroid_lcc" -
              rowVal ir.snd "mem_position_x_centroid_lcc") +
           cosD (rowVal ir.snd "mem_shcoeffs_transform_angle_lcc") *
             (rowVal ir.snd "dna_position_y_centroid_lcc" -
              rowVal ir.snd "mem_position_y_centroid_lcc"))).sum /
          (rowsInBin df idxs).length,
        ((rowsInBin df idxs).map (fun ir =>
           rowVal ir.snd "dna_position_z_centroid_lcc" -
           rowVal ir.snd "mem_position_z_centroid_lcc")).sum /
          (rowsInBin df idxs).length))
        ∈ nuclearOffsets cosD sinD true df bin_indexes) ∧
    nuclearOffsets cosD sinD false df bin_indexes =
      bin_indexes.map (fun bi => (bi.fst, ((0 : ℚ), (0 : ℚ), (0 : ℚ)))) := by
  constructor
  · intro b idxs hmem _
    refine List.mem_map.mpr ⟨(b, idxs), hmem, ?_⟩
    simp only [if_pos]
    refine Prod.ext rfl ?_
    simp only [meanTriple, List.map_map, List.length_map, Prod.mk.injEq]
    refine ⟨?_, ?_, ?_⟩
    · refine congrArg (fun s : ℚ => s / ((rowsInBin df idxs).length : ℚ))
        (congrArg List.sum (List.map_congr_left ?_))
      intro ir _
      simp only [Function.comp_apply, process_this_index, transform_eval]
    · refine congrArg (fun s : ℚ => s / ((rowsInBin df idxs).length : ℚ))
        (congrArg List.sum (List.map_congr_left ?_))
      intro ir _
      simp only [Function.comp_apply, process_this_index, transform_eval]
    · refine congrArg (fun s : ℚ => s / ((rowsInBin df idxs).length : ℚ))
        (congrArg List.sum (List.map_congr_left ?_))
      intro ir _
      simp only [Function.comp_apply, process_this_index, transform_eval]
  · rfl

theorem nuclearOffsets_spec_witness :
    ((1, [7]) ∈ ([(1, [7])] : List (ℕ × List ℕ))) ∧
    (rowsInBin [(7, [("dna_position_x_centroid_lcc", (3 : ℚ)),
        ("dna_position_y_centroid_lcc", (4 : ℚ)),
        ("dna_position_z_centroid_lcc", (5 : ℚ)),
        ("mem_shcoeffs_transform_angle_lcc", (90 : ℚ)),
        ("mem_position_x_centroid_lcc", (1 : ℚ)),
        ("mem_position_y_centroid_lcc", (1 : ℚ)),
        ("mem_position_z_centroid_lcc", (1 : ℚ))])] [7] ≠ []) ∧
    ((1,
      (((rowsInBin [(7, [("dna_position_x_centroid_lcc", (3 : ℚ)),
          ("dna_position_y_centroid_lcc", (4 : ℚ)),
          ("dna_position_z_centroid_lcc", (5 : ℚ)),
          ("mem_shcoeffs_transform_angle_lcc", (90 : ℚ)),
          ("mem_position_x_centroid_lcc", (1 : ℚ)),
          ("mem_position_y_centroid_lcc", (1 : ℚ)),
          ("mem_position_z_centroid_lcc", (1 : ℚ))])] [7]).map (fun ir =>
           (fun _ => (0 : ℚ)) (rowVal ir.snd "mem_shcoeffs_transform_angle_lcc") *
             (rowVal ir.snd "dna_position_x_centroid_lcc" -
              rowVal ir.snd "mem_position_x_centroid_lcc") +
           (fun _ => (1 : ℚ)) (rowVal ir.snd "mem_shcoeffs_transform_angle_lcc") *
             (rowVal ir.snd "dna_position_y_centroid_lcc" -
              rowVal ir.snd "mem_position_y_centroid_lcc"))).sum /
          (rowsInBin [(7, [("dna_position_x_centroid_lcc", (3 : ℚ)),
          ("dna_position_y_centroid_lcc", (4 : ℚ)),
          ("dna_position_z_centroid_lcc", (5 : ℚ)),
          ("mem_shcoeffs_transform_angle_lcc", (90 : ℚ)),
          ("mem_position_x_centroid_lcc", (1 : ℚ)),
          ("mem_position_y_centroid_lcc", (1 : ℚ)),
          ("mem_position_z_centroid_lcc", (1 : ℚ))])] [7]).length,
        ((rowsInBin [(7, [("dna_position_x_centroid_lcc", (3 : ℚ)),
          ("dna_position_y_centroid_lcc", (4 : ℚ)),
          ("dna_position_z_centroid_lcc", (5 : ℚ)),
          ("mem_shcoeffs_transform_angle_lcc", (90 : ℚ)),
          ("mem_position_x_centroid_lcc", (1 : ℚ)),
          ("mem_position_y_centroid_lcc", (1 : ℚ)),
          ("mem_position_z_centroid_lcc", (1 : ℚ))])] [7]).map (fun ir =>
           -(fun _ => (1 : ℚ)) (rowVal ir.snd "mem_shcoeffs_transform_angle_lcc") *
             (rowVal ir.snd "dna_position_x_centroid_lcc" -
              rowVal ir.snd "mem_position_x_centroid_lcc") +
           (fun _ => (0 : ℚ)) (rowVal ir.snd "mem_shcoeffs_transform_angle_lcc") *
             (rowVal ir.snd "dna_position_y_centroid_lcc" -
              rowVal ir.snd "mem_position_y_centroid_lcc"))).sum /
          (rowsInBin [(7, [("dna_position_x_centroid_lcc", (3 : ℚ)),
          ("dna_position_y_centroid_lcc", (4 : ℚ)),
          ("dna_position_z_centroid_lcc", (5 : ℚ)),
          ("mem_shcoeffs_transform_angle_lcc", (90 : ℚ)),
          ("mem_position_x_centroid_lcc", (1 : ℚ)),
          ("mem_position_y_centroid_lcc", (1 : ℚ)),
          ("mem_position_z_centroid_lcc", (1 : ℚ))])] [7]).length,
        ((rowsInBin [(7, [("dna_position_x_centroid_lcc", (3 : ℚ)),
          ("dna_position_y_centroid_lcc", (4 : ℚ)),
          ("dna_position_z_centroid_lcc", (5 : ℚ)),
          ("mem_shcoeffs_transform_angle_lcc", (90 : ℚ)),
          ("mem_position_x_centroid_lcc", (1 : ℚ)),
          ("mem_position_y_centroid_lcc", (1 : ℚ)),
          ("mem_position_z_centroid_lcc", (1 : ℚ))])] [7]).map (fun ir =>
           rowVal ir.snd "dna_position_z_centroid_lcc" -
           rowVal ir.snd "mem_position_z_centroid_lcc")).sum /
          (rowsInBin [(7, [("dna_position_x_centroid_lcc", (3 : ℚ)),
          ("dna_position_y_centroid_lcc", (4 : ℚ)),
          ("dna_position_z_centroid_lcc", (5 : ℚ)),
          ("mem_shcoeffs_transform_angle_lcc", (90 : ℚ)),
          ("mem_position_x_centroid_lcc", (1 : ℚ)),
          ("mem_position_y_centroid_lcc", (1 : ℚ)),
          ("mem_position_z_centroid_lcc", (1 : ℚ))])] [7]).length))
      ∈ nuclearOffsets (fun _ => (0 : ℚ)) (fun _ => (1 : ℚ)) true
          [(7, [("dna_position_x_centroid_lcc", (3 : ℚ)),
            ("dna_position_y_centroid_lcc", (4 : ℚ)),
            ("dna_position_z_centroid_lcc", (5 : ℚ)),
            ("mem_shcoeffs_transform_angle_lcc", (90 : ℚ)),
            ("mem_position_x_centroid_lcc", (1 : ℚ)),
            ("mem_position_y_centroid_lcc", (1 : ℚ)),
            ("mem_position_z_centroid_lcc", (1 : ℚ))])] [(1, [7])]) :=
  ⟨by decide, by decide,
   (nuclearOffsets_spec (fun _ => (0 : ℚ)) (fun _ => (1 : ℚ))
     [(7, [("dna_position_x_centroid_lcc", (3 : ℚ)),
       ("dna_position_y_centroid_lcc", (4 : ℚ)),
       ("dna_position_z_centroid_lcc", (5 : ℚ)),
       ("mem_shcoeffs_transform_angle_lcc", (90 : ℚ)),
       ("mem_position_x_centroid_lcc", (1 : ℚ)),
       ("mem_position_y_centroid_lcc", (1 : ℚ)),
       ("mem_position_z_centroid_lcc", (1 : ℚ))])] [(1, [7])]).1 1 [7]
     (by decide) (by decide)⟩

theorem stepQ_pos (n : ℕ) (hn : 2 ≤ n) : 0 < stepQ n := by
  unfold stepQ
  have h2 : (2 : ℚ) ≤ (n : ℚ) := by exact_mod_cast hn
  have hd : (0 : ℚ) < (n : ℚ) - 1 := by linarith
  positivity

theorem binw_eq (n : ℕ) : binw n = stepQ n / 2 := by
  unfold binw stepQ
  rw [div_div, mul_comm]

theorem edgeAt_center_sub (n k : ℕ) : binCenter n k - binw n = edgeAt n k := by
  unfold binCenter edgeAt
  rw [binw_eq]
  unfold stepQ
  ring

theorem edgeAt_center_add (n k : ℕ) : binCenter n k + binw n = edgeAt n (k + 1) := by
  unfold binCenter edgeAt
  rw [binw_eq]
  unfold stepQ
  push_cast
  ring

theorem edgeAt_lt (n : ℕ) (hn : 2 ≤ n) {j j' : ℕ} (h : j < j') :
    edgeAt n j < edgeAt n j' := by
  unfold edgeAt
  have hs := stepQ_pos n hn
  have hj : (j : ℚ) < (j' : ℚ) := by exact_mod_cast h
  have := mul_lt_mul_of_pos_right hj hs
  linarith

theorem mem_edgeVals_iff (n : ℕ) (hn : 2 ≤ n) (x : ℚ) :
    x ∈ edgeVals n ↔ ∃ j, j ≤ n ∧ x = edgeAt n j := by
  unfold edgeVals binCentersList
  simp only [List.mem_flatMap, List.mem_map, List.mem_range]
  constructor
  · rintro ⟨b, ⟨k, hk, rfl⟩, hx⟩
    simp only [List.mem_cons, List.not_mem_nil, or_false] at hx
    rcases hx with rfl | rfl
    · exact ⟨k, by omega, edgeAt_center_sub n k⟩
    · exact ⟨k + 1, by omega, edgeAt_center_add n k⟩
  · rintro ⟨j, hj, rfl⟩
    by_cases hjn : j < n
    · refine ⟨binCenter n j, ⟨j, hjn, rfl⟩, ?_⟩
      simp only [List.mem_cons, List.not_mem_nil, or_false]
      exact Or.inl (edgeAt_center_sub n j).symm
    · have hjeq : j = n := by omega
      refine ⟨binCenter n (n - 1), ⟨n - 1, by omega, rfl⟩, ?_⟩
      have hstep : binCenter n (n - 1) + binw n = edgeAt n n := by
        have h := edgeAt_center_add n (n - 1)
        rwa [Nat.sub_add_cancel (by omega : 1 ≤ n)] at h
      rw [hjeq]
      simp only [List.mem_cons, List.not_mem_nil, or_false]
      exact Or.inr hstep.symm

theorem target_pairwise_lt (n : ℕ) (hn : 2 ≤ n) :
    ((List.range (n + 1)).map (edgeAt n)).Pairwise (· < ·) := by
  rw [List.pairwise_map]
  exact (List.pairwise_lt_range (n + 1)).imp (fun h => edgeAt_lt n hn h)

theorem npUnique_sorted (l : List ℚ) : (npUnique l).Sorted (· ≤ ·) :=
  List.Pairwise.sublist (List.dedup_sublist _) (List.sorted_insertionSort _ l)

theorem mem_npUnique (l : List ℚ) (x : ℚ) : x ∈ npUnique l ↔ x ∈ l := by
  unfold npUnique
  rw [List.mem_dedup]
  exact (List.perm_insertionSort _ l).mem_iff

theorem npUnique_nodup (l : List ℚ) : (npUnique l).Nodup := List.nodup_dedup _

theorem npUnique_edgeVals_eq (n : ℕ) (hn : 2 ≤ n) :
    npUnique (edgeVals n) = (List.range (n + 1)).map (edgeAt n) := by
  have hperm : (npUnique (edgeVals n)).Perm ((List.range (n + 1)).map (edgeAt n)) := by
    apply List.perm_of_nodup_nodup_toFinset_eq (npUnique_nodup _)
      ((target_pairwise_lt n hn).imp (fun h => ne_of_lt h))
    apply Finset.ext
    intro x
    simp only [List.mem_toFinset, mem_npUnique, mem_edgeVals_iff n hn, List.mem_map,
      List.mem_range]
    constructor
    · rintro ⟨j, hj, rfl⟩
      exact ⟨j, by omega, rfl⟩
    · rintro ⟨j, hj, rfl⟩
      exact ⟨j, by omega, rfl⟩
  exact List.eq_of_perm_of_sorted hperm (npUnique_sorted _)
    ((target_pairwise_lt n hn).imp (fun h => le_of_lt h))

theorem set_last_append {α : Type} (l : List α) (a v : α) :
    (l ++ [a]).set l.length v = l ++ [v] := by
  induction l with
  | nil => rfl
  | cons x xs ih =>
    simp only [List.cons_append, List.length_cons, List.set_cons_succ, ih]

theorem bin_edges_eq (n : ℕ) (hn : 2 ≤ n) :
    bin_edges n = XQ.negInf ::
      (((List.range (n - 1)).map (fun j => XQ.fin (edgeAt n (j + 1)))) ++ [XQ.posInf]) := by
  obtain ⟨m, rfl⟩ : ∃ m, n = m + 2 := ⟨n - 2, by omega⟩
  unfold bin_edges
  rw [npUnique_edgeVals_eq (m + 2) hn, List.map_map]
  rw [List.range_succ_eq_map (m + 2)]
  simp only [List.map_cons, List.map_map, List.length_cons, List.length_map,
    List.length_range, List.set_cons_zero]
  rw [show List.range (m + 2) = List.range (m + 1) ++ [m + 1] by
    simpa using List.range_succ (n := m + 1)]
  simp only [List.map_append, List.map_cons, List.map_nil]
  rw [show m + 2 + 1 - 1 = ((List.range (m + 1)).map
      ((XQ.fin ∘ edgeAt (m + 2)) ∘ Nat.succ)).length + 1 by simp]
  rw [List.set_cons_succ, set_last_append]
  rfl

theorem binOf_eq (n : ℕ) (hn : 2 ≤ n) (z : ℚ) :
    binOf n z = 1 + (List.range (n - 1)).countP (fun j => decide (edgeAt n (j + 1) ≤ z)) := by
  unfold binOf np_digitize
  rw [bin_edges_eq n hn]
  rw [List.countP_cons, List.countP_append, List.countP_map]
  have h1 : XQ.leB XQ.negInf (XQ.fin z) = true := rfl
  have h2 : ((fun e => XQ.leB e (XQ.fin z)) ∘ fun j => XQ.fin (edgeAt n (j + 1))) =
      fun j => decide (edgeAt n (j + 1) ≤ z) := rfl
  have h3 : List.countP (fun e => XQ.leB e (XQ.fin z)) [XQ.posInf] = 0 := rfl
  rw [h2, h3, h1]
  simp only [eq_self_iff_true, if_true]
  omega

theorem binOf_bounds (n : ℕ) (hn : 2 ≤ n) (z : ℚ) : 1 ≤ binOf n z ∧ binOf n z ≤ n := by
  rw [binOf_eq n hn]
  have hle := List.countP_le_length (p := fun j => decide (edgeAt n (j + 1) ≤ z))
    (l := List.range (n - 1))
  rw [List.length_range] at hle
  omega

theorem binOf_low (n : ℕ) (hn : 2 ≤ n) (z : ℚ) (hz : z < -2) : binOf n z = 1 := by
  rw [binOf_eq n hn]
  have hc : (List.range (n - 1)).countP (fun j => decide (edgeAt n (j + 1) ≤ z)) = 0 := by
    rw [List.countP_eq_zero]
    intro j _
    simp only [decide_eq_true_eq]
    intro hle
    have hgt : (-2 : ℚ) < edgeAt n (j + 1) := by
      unfold edgeAt
      rw [binw_eq]
      have hs := stepQ_pos n hn
      have hj0 : (0 : ℚ) ≤ (j : ℚ) := Nat.cast_nonneg j
      push_cast
      nlinarith
    linarith
  omega

theorem binOf_high (n : ℕ) (hn : 2 ≤ n) (z : ℚ) (hz : 2 < z) : binOf n z = n := by
  rw [binOf_eq n hn]
  have hc : (List.range (n - 1)).countP (fun j => decide (edgeAt n (j + 1) ≤ z)) =
      (List.range (n - 1)).length := by
    rw [List.countP_eq_length]
    intro j hj
    simp only [decide_eq_true_eq]
    have hj' : j < n - 1 := List.mem_range.mp hj
    have key : edgeAt n (j + 1) ≤ edgeAt n (n - 1) := by
      rcases Nat.lt_or_ge (j + 1) (n - 1) with h | h
      · exact le_of_lt (edgeAt_lt n hn h)
      · have heq : j + 1 = n - 1 := by omega
        rw [heq]
    have hval : edgeAt n (n - 1) < 2 := by
      unfold edgeAt
      rw [binw_eq]
      have hs := stepQ_pos n hn
      have hcast : ((n - 1 : ℕ) : ℚ) = (n : ℚ) - 1 := by
        push_cast [Nat.cast_sub (by omega : 1 ≤ n)]
        ring
      rw [hcast]
      have hstep : ((n : ℚ) - 1) * stepQ n = 4 := by
        unfold stepQ
        have h2 : (2 : ℚ) ≤ (n : ℚ) := by exact_mod_cast hn
        have hd : ((n : ℚ) - 1) ≠ 0 := by
          intro h
          have h1 : (n : ℚ) = 1 := by linarith
          linarith
        field_simp
        ring
      nlinarith
    linarith
  rw [hc, List.length_range]
  omega

theorem countP_range_lt (m k : ℕ) :
    (List.range m).countP (fun j => decide (j < k)) = min k m := by
  induction m with
  | zero => simp
  | succ m ih =>
    rw [List.range_succ, List.countP_append, ih]
    have hsing : List.countP (fun j => decide (j < k)) [m] = if m < k then 1 else 0 := by
      by_cases h : m < k
      · simp [List.countP_cons, h]
      · simp [List.countP_cons, h]
    rw [hsing]
    by_cases h : m < k
    · rw [if_pos h]
      omega
    · rw [if_neg h]
      omega

theorem binOf_center (n : ℕ) (hn : 2 ≤ n) (k : ℕ) (hk : k < n) :
    binOf n (binCenter n k) = k + 1 := by
  rw [binOf_eq n hn]
  have hs2 := stepQ_pos n hn
  unfold stepQ at hs2
  have hfun : (fun j => decide (edgeAt n (j + 1) ≤ binCenter n k)) =
      (fun j => decide (j < k)) := by
    funext j
    have hiff : edgeAt n (j + 1) ≤ binCenter n k ↔ j < k := by
      unfold edgeAt binCenter
      rw [binw_eq]
      unfold stepQ
      constructor
      · intro hle
        by_contra hge
        push_neg at hge
        have hkj : (k : ℚ) ≤ (j : ℚ) := by exact_mod_cast hge
        have hmul := mul_le_mul_of_nonneg_right hkj (le_of_lt hs2)
        push_cast at hle
        linarith
      · intro hlt
        have hjk : (j : ℚ) + 1 ≤ (k : ℚ) := by exact_mod_cast hlt
        have hmul := mul_le_mul_of_nonneg_right hjk (le_of_lt hs2)
        push_cast
        linarith
    simp [hiff]
  rw [hfun, countP_range_lt]
  omega

theorem binOf_coverage (n : ℕ) (hn : 2 ≤ n) (zs : List ℚ)
    (hsp : ∀ k, k < n → binCenter n k ∈ zs) :
    (zs.map (binOf n)).toFinset = Finset.Icc 1 n := by
  apply Finset.ext
  intro b
  simp only [List.mem_toFinset, List.mem_map, Finset.mem_Icc]
  constructor
  · rintro ⟨z, _, rfl⟩
    exact binOf_bounds n hn z
  · rintro ⟨h1, h2⟩
    refine ⟨binCenter n (b - 1), hsp (b - 1) (by omega), ?_⟩
    rw [binOf_center n hn (b - 1) (by omega)]
    omega

theorem find?_append_of_none {p : String × ℚ → Bool} (r l : Row) (h : r.find? p = none) :
    (r ++ l).find? p = l.find? p := by
  induction r with
  | nil => rfl
  | cons a r ih =>
    by_cases hp : p a
    · rw [List.find?_cons_of_pos _ hp] at h
      cases h
    · rw [List.find?_cons_of_neg _ hp] at h
      rw [List.cons_append, List.find?_cons_of_neg _ hp]
      exact ih h

theorem find?_map_setVal (r : Row) (k : String) (v : ℚ)
    (h : r.any (fun kv => kv.fst == k) = true) :
    (r.map (fun kv => if kv.fst == k then (k, v) else kv)).find? (fun kv => kv.fst == k) =
      some (k, v) := by
  induction r with
  | nil => simp at h
  | cons a r ih =>
    rw [List.any_cons, Bool.or_eq_true] at h
    by_cases ha : a.fst == k
    · simp only [List.map_cons, if_pos ha]
      rw [List.find?_cons_of_pos _ (by simp)]
    · have h' : r.any (fun kv => kv.fst == k) = true := by
        rcases h with h | h
        · exact absurd h ha
        · exact h
      simp only [List.map_cons, if_neg ha]
      have hstep : (List.find? (fun kv => kv.fst == k)
          (a :: r.map (fun kv => if kv.fst == k then (k, v) else kv))) =
          List.find? (fun kv => kv.fst == k)
            (r.map (fun kv => if kv.fst == k then (k, v) else kv)) :=
        List.find?_cons_of_neg _ ha
      rw [hstep]
      exact ih h'

theorem rowVal_setVal_self (r : Row) (k : String) (v : ℚ) :
    rowVal (setVal r k v) k = v := by
  unfold setVal
  by_cases h : r.any (fun kv => kv.fst == k)
  · rw [if_pos h]
    unfold rowVal
    rw [find?_map_setVal r k v h]
  · rw [if_neg h]
    unfold rowVal
    have hnone : r.find? (fun kv => kv.fst == k) = none := by
      rw [List.find?_eq_none]
      intro x hx hpx
      exact h (List.any_eq_true.mpr ⟨x, hx, hpx⟩)
    rw [find?_append_of_none _ _ hnone]
    rw [List.find?_cons_of_pos _ (by simp)]

/-- C1: for every `nbins = n ≥ 2`, the digitizer of `digitize_shape_mode`
assigns every z-scored value exactly one bin index in the contiguous range
`1..n`; the deduplicated sorted edge set `{center ± binw}` with the outermost
edges replaced by ∓infinity has the closed form
`[-inf, edge 1, ..., edge (n-1), +inf]`; any value below `-2` saturates into
bin `1` and any value above `2` into bin `n`; the `k`-th bin center lands in
bin `k+1`, so inputs spanning the full ±2σ range (one value per bin center)
produce indices covering exactly `1..n`; and every record retained by a
successful `digitize_shape_mode` run carries exactly one bin value, an
integer between `1` and `n`, in its `bin` column. -/
theorem digitize_shape_mode_bins_spec (n : ℕ) (hn : 2 ≤ n) :
    (∀ z : ℚ, 1 ≤ binOf n z ∧ binOf n z ≤ n) ∧
    (bin_edges n = XQ.negInf ::
      (((List.range (n - 1)).map (fun j => XQ.fin (edgeAt n (j + 1)))) ++ [XQ.posInf])) ∧
    (∀ z : ℚ, z < -2 → binOf n z = 1) ∧
    (∀ z : ℚ, 2 < z → binOf n z = n) ∧
    (∀ k, k < n → binOf n (binCenter n k) = k + 1) ∧
    (∀ zs : List ℚ, (∀ k, k < n → binCenter n k ∈ zs) →
      (zs.map (binOf n)).toFinset = Finset.Icc 1 n) ∧
    (∀ (sqrtQ : ℚ → ℚ) (sname : ℕ → String) (df : DF) (feature : String)
        (fbo : List String) (pct : ℚ) (out : DigitizeOut),
      digitize_shape_mode sqrtQ sname df feature n fbo pct false = Except.ok out →
      ∀ ir ∈ out.first.rows, ∃ b : ℕ, 1 ≤ b ∧ b ≤ n ∧ rowVal ir.snd "bin" = (b : ℚ)) := by
  refine ⟨fun z => binOf_bounds n hn z, bin_edges_eq n hn, fun z hz => binOf_low n hn z hz,
    fun z hz => binOf_high n hn z hz, fun k hk => binOf_center n hn k hk,
    fun zs hsp => binOf_coverage n hn zs hsp, ?_⟩
  intro sqrtQ sname df feature fbo pct out hok ir hir
  simp only [digitize_shape_mode] at hok
  split at hok
  · cases hok
  · split at hok
    · cases hok
    · rw [if_neg (by exact Bool.false_ne_true)] at hok
      cases hok
      rcases List.mem_map.mp hir with ⟨p, hp, rfl⟩
      have hz := (List.of_mem_zip hp).2
      rcases List.mem_map.mp hz with ⟨z, _, hzeq⟩
      refine ⟨p.snd, ?_, ?_, rowVal_setVal_self _ _ _⟩
      · rw [← hzeq]
        exact (binOf_bounds n hn z).1
      · rw [← hzeq]
        exact (binOf_bounds n hn z).2

theorem digitize_shape_mode_bins_spec_witness :
    (2 ≤ 3) ∧
    ((∀ z : ℚ, 1 ≤ binOf 3 z ∧ binOf 3 z ≤ 3) ∧
    (bin_edges 3 = XQ.negInf ::
      (((List.range (3 - 1)).map (fun j => XQ.fin (edgeAt 3 (j + 1)))) ++ [XQ.posInf])) ∧
    (∀ z : ℚ, z < -2 → binOf 3 z = 1) ∧
    (∀ z : ℚ, 2 < z → binOf 3 z = 3) ∧
    (∀ k, k < 3 → binOf 3 (binCenter 3 k) = k + 1) ∧
    (∀ zs : List ℚ, (∀ k, k < 3 → binCenter 3 k ∈ zs) →
      (zs.map (binOf 3)).toFinset = Finset.Icc 1 3) ∧
    (∀ (sqrtQ : ℚ → ℚ) (sname : ℕ → String) (df : DF) (feature : String)
        (fbo : List String) (pct : ℚ) (out : DigitizeOut),
      digitize_shape_mode sqrtQ sname df feature 3 fbo pct false = Except.ok out →
      ∀ ir ∈ out.first.rows, ∃ b : ℕ, 1 ≤ b ∧ b ≤ 3 ∧ rowVal ir.snd "bin" = (b : ℚ))) :=
  ⟨by decide, digitize_shape_mode_bins_spec 3 (by decide)⟩

theorem find?_append_of_some {p : String × ℚ → Bool} (r l : Row) (kv : String × ℚ)
    (h : r.find? p = some kv) : (r ++ l).find? p = some kv := by
  induction r with
  | nil => cases h
  | cons a r ih =>
    by_cases hp : p a
    · rw [List.find?_cons_of_pos _ hp] at h
      rw [List.cons_append, List.find?_cons_of_pos _ hp]
      exact h
    · rw [List.find?_cons_of_neg _ hp] at h
      rw [List.cons_append]
      have hstep : List.find? p (a :: (r ++ l)) = List.find? p (r ++ l) :=
        List.find?_cons_of_neg _ hp
      rw [hstep]
      exact ih h

theorem rowVal_append_last_ne (r : Row) (k k' : String) (a : ℚ) (h : k' ≠ k) :
    rowVal (r ++ [(k, a)]) k' = rowVal r k' := by
  unfold rowVal
  cases hf : r.find? (fun kv => kv.fst == k') with
  | some kv => rw [find?_append_of_some _ _ _ hf]
  | none =>
    rw [find?_append_of_none _ _ hf]
    have hstep : List.find? (fun kv => kv.fst == k') [(k, a)] =
        List.find? (fun kv => kv.fst == k') [] := by
      apply List.find?_cons_of_neg
      simp only [beq_iff_eq, decide_eq_true_eq]
      exact fun heq => h heq.symm
    rw [hstep]
    rfl

theorem rowVal_append_self (r : Row) (k : String) (a : ℚ) (h : k ∉ rowKeys r) :
    rowVal (r ++ [(k, a)]) k = a := by
  unfold rowVal
  have hnone : r.find? (fun kv => kv.fst == k) = none := by
    rw [List.find?_eq_none]
    intro x hx hpx
    exact h (List.mem_map.mpr ⟨x, hx, by simpa using hpx⟩)
  rw [find?_append_of_none _ _ hnone, List.find?_cons_of_pos _ (by simp)]

theorem setVal_of_not_mem (r : Row) (k : String) (v : ℚ) (h : k ∉ rowKeys r) :
    setVal r k v = r ++ [(k, v)] := by
  unfold setVal
  rw [if_neg]
  intro hany
  rcases List.any_eq_true.mp hany with ⟨kv, hkv, hb⟩
  exact h (List.mem_map.mpr ⟨kv, hkv, by simpa using hb⟩)

theorem setVal_append_self (r : Row) (k : String) (a v : ℚ) (h : k ∉ rowKeys r) :
    setVal (r ++ [(k, a)]) k v = r ++ [(k, v)] := by
  unfold setVal
  rw [if_pos]
  · rw [List.map_append]
    congr 1
    · have hall : ∀ kv ∈ r, (if kv.fst == k then (k, v) else kv) = kv := by
        intro kv hkv
        rw [if_neg]
        intro hb
        exact h (List.mem_map.mpr ⟨kv, hkv, by simpa using hb⟩)
      rw [List.map_congr_left hall]
      simp
    · simp
  · rw [List.any_append]
    simp

theorem zipWith_snd_of_length {α β : Type} :
    ∀ (l : List α) (l' : List β), l.length = l'.length →
      List.zipWith (fun _ b => b) l l' = l' := by
  intro l
  induction l with
  | nil => intro l' h; cases l' with
    | nil => rfl
    | cons b bs => simp at h
  | cons a as ih =>
    intro l' h
    cases l' with
    | nil => simp at h
    | cons b bs =>
      simp only [List.zipWith_cons_cons]
      rw [ih bs (by simpa using h)]

theorem zipWith_zipWith_same {α β γ δ : Type} (f : α → γ → δ) (g : α → β → γ) :
    ∀ (l : List α) (l' : List β),
      List.zipWith f l (List.zipWith g l l') = List.zipWith (fun a b => f a (g a b)) l l' := by
  intro l
  induction l with
  | nil => intro l'; rfl
  | cons a as ih =>
    intro l'
    cases l' with
    | nil => rfl
    | cons b bs => simp only [List.zipWith_cons_cons, ih]

theorem zipWith_replicate_right {α β γ : Type} (f : α → β → γ) (b : β) :
    ∀ l : List α, List.zipWith f l (List.replicate l.length b) = l.map (fun a => f a b) := by
  intro l
  induction l with
  | nil => rfl
  | cons a as ih => simp only [List.length_cons, List.replicate_succ, List.zipWith_cons_cons,
      List.map_cons, ih]

theorem zip_replicate_map {α β γ : Type} (g : α × β → γ) (l : List α) (b : β) :
    (l.zip (List.replicate l.length b)).map g = l.map (fun x => g (x, b)) := by
  induction l with
  | nil => rfl
  | cons x xs ih => simp only [List.length_cons, List.replicate_succ, List.zip_cons_cons,
      List.map_cons, ih]

theorem zip_map_self_map {α β γ : Type} (g : α → β) (m : α × β → γ) :
    ∀ l : List α, (l.zip (l.map g)).map m = l.map (fun a => m (a, g a)) := by
  intro l
  induction l with
  | nil => rfl
  | cons a as ih => simp only [List.map_cons, List.zip_cons_cons, ih]

theorem dfSetExtreme_eq_marked (df : DF) (hcols : "extreme" ∉ df.cols)
    (hrows : ∀ ir ∈ df.rows, "extreme" ∉ rowKeys ir.snd) :
    dfSetExtreme df = markedDF df (List.replicate df.rows.length false) := by
  unfold dfSetExtreme markedDF
  congr 1
  · rw [if_neg hcols]
  · rw [zip_replicate_map]
    apply List.map_congr_left
    intro ir hir
    rw [setVal_of_not_mem _ _ _ (hrows ir hir)]
    rfl

theorem marked_colVals (f : String) (hf : f ≠ "extreme") :
    ∀ (rows : List (ℕ × Row)) (marks : List Bool), rows.length = marks.length →
      ((rows.zip marks).map (fun p =>
          (p.fst.fst, p.fst.snd ++ [("extreme", if p.snd then (1 : ℚ) else 0)]))).map
        (fun ir => rowVal ir.snd f) = rows.map (fun ir => rowVal ir.snd f) := by
  intro rows
  induction rows with
  | nil => intro marks _; rfl
  | cons ir rest ih =>
    intro marks hlen
    cases marks with
    | nil => simp at hlen
    | cons mk mks =>
      simp only [List.zip_cons_cons, List.map_cons]
      rw [ih mks (by simpa using hlen)]
      congr 1
      exact rowVal_append_last_ne _ _ _ _ hf

theorem mark_step_rows (f : String) (hf : f ≠ "extreme") (finf fsup : ℚ) :
    ∀ (rows : List (ℕ × Row)) (marks : List Bool), rows.length = marks.length →
      (∀ ir ∈ rows, "extreme" ∉ rowKeys ir.snd) →
      ((rows.zip marks).map (fun p =>
          (p.fst.fst, p.fst.snd ++ [("extreme", if p.snd then (1 : ℚ) else 0)]))).map
        (fun ir => if rowVal ir.snd f < finf ∨ fsup < rowVal ir.snd f then
          (ir.fst, setVal ir.snd "extreme" 1) else ir) =
      (rows.zip (List.zipWith (fun ir mk =>
          mk || decide (rowVal ir.snd f < finf ∨ fsup < rowVal ir.snd f)) rows marks)).map
        (fun p => (p.fst.fst, p.fst.snd ++ [("extreme", if p.snd then (1 : ℚ) else 0)])) := by
  intro rows
  induction rows with
  | nil => intro marks _ _; rfl
  | cons ir rest ih =>
    intro marks hlen hkeys
    cases marks with
    | nil => simp at hlen
    | cons mk mks =>
      simp only [List.zip_cons_cons, List.zipWith_cons_cons, List.map_cons]
      have hkey : "extreme" ∉ rowKeys ir.snd := hkeys ir (List.mem_cons_self ir rest)
      have hval : rowVal (ir.snd ++ [("extreme", if mk then (1 : ℚ) else 0)]) f =
          rowVal ir.snd f := rowVal_append_last_ne _ _ _ _ hf
      congr 1
      · by_cases hc : rowVal ir.snd f < finf ∨ fsup < rowVal ir.snd f
        · rw [if_pos (by rwa [hval])]
          have hd : decide (rowVal ir.snd f < finf ∨ fsup < rowVal ir.snd f) = true :=
            decide_eq_true hc
          rw [hd, Bool.or_true]
          simp only [if_pos]
          exact Prod.ext rfl (setVal_append_self _ _ _ _ hkey)
        · rw [if_neg (by rwa [hval])]
          have hd : decide (rowVal ir.snd f < finf ∨ fsup < rowVal ir.snd f) = false :=
            decide_eq_false hc
          rw [hd, Bool.or_false]
      · exact ih mks (by simpa using hlen)
          (fun ir' hir' => hkeys ir' (List.mem_cons_of_mem _ hir'))

theorem markLoop_no_error (pct : ℚ) (h0 : 0 ≤ pct) (h100 : pct ≤ 100) :
    ∀ (fs : List String) (df : DF) (marks : List Bool),
      df.rows.length = marks.length → df.rows ≠ [] →
      "extreme" ∉ df.cols → (∀ ir ∈ df.rows, "extreme" ∉ rowKeys ir.snd) →
      (∀ f ∈ fs, f ∈ df.cols) →
      markLoop pct (markedDF df marks) fs =
        (markedDF df (List.zipWith (fun ir mk =>
          mk || fs.any (fun f => violB df pct f ir.snd)) df.rows marks), none) := by
  intro fs
  induction fs with
  | nil =>
    intro df marks hlen _ _ _ _
    simp only [markLoop, List.any_nil, Bool.or_false]
    rw [zipWith_snd_of_length df.rows marks hlen]
  | cons f fs ih =>
    intro df marks hlen hne hcols hkeys hfs
    have hfmem : f ∈ df.cols := hfs f (List.mem_cons_self f fs)
    have hfne : f ≠ "extreme" := fun h => hcols (h ▸ hfmem)
    have hmemd : f ∈ (markedDF df marks).cols := by
      unfold markedDF
      exact List.mem_append.mpr (Or.inl hfmem)
    have hrowsne : (markedDF df marks).rows ≠ [] := by
      unfold markedDF
      intro h
      have hz : df.rows.zip marks = [] := List.map_eq_nil_iff.mp h
      have hlz := congrArg List.length hz
      rw [List.length_zip, ← hlen, min_self] at hlz
      exact hne (List.length_eq_zero.mp (by simpa using hlz))
    simp only [markLoop]
    rw [if_neg (fun hc => hc hmemd)]
    rw [if_neg (by push_neg; constructor <;> linarith)]
    rw [if_neg hrowsne]
    have hvals : colVals (markedDF df marks) f = colVals df f := by
      unfold colVals markedDF
      exact marked_colVals f hfne df.rows marks hlen
    rw [hvals]
    have hmark : markRows (markedDF df marks) f (percentile (colVals df f) pct)
        (percentile (colVals df f) (100 - pct)) =
        markedDF df (List.zipWith (fun ir mk =>
          mk || violB df pct f ir.snd) df.rows marks) := by
      unfold markRows markedDF violB
      congr 1
      exact mark_step_rows f hfne _ _ df.rows marks hlen hkeys
    rw [hmark]
    rw [ih df _ (by rw [List.length_zipWith]; omega) hne hcols hkeys
      (fun f' hf' => hfs f' (List.mem_cons_of_mem _ hf'))]
    rw [zipWith_zipWith_same]
    have hfun : (fun (a : ℕ × Row) (b : Bool) =>
        b || violB df pct f a.snd || fs.any (fun f' => violB df pct f' a.snd)) =
        (fun (ir : ℕ × Row) (mk : Bool) =>
          mk || (f :: fs).any (fun f' => violB df pct f' ir.snd)) := by
      funext a b
      simp only [List.any_cons, Bool.or_assoc]
    rw [hfun]


theorem cols_drop_extreme (cols : List String) (h : "extreme" ∉ cols) :
    (cols ++ ["extreme"]).filter (fun c => ¬ c == "extreme") = cols := by
  rw [List.filter_append]
  have h1 : cols.filter (fun c => ¬ c == "extreme") = cols := by
    rw [List.filter_eq_self]
    intro c hc
    have hne : c ≠ "extreme" := fun heq => h (heq ▸ hc)
    simp [hne]
  have h2 : (["extreme"] : List String).filter (fun c => ¬ c == "extreme") = [] := by
    simp
  rw [h1, h2, List.append_nil]

theorem row_drop_extreme (r : Row) (x : ℚ) (h : "extreme" ∉ rowKeys r) :
    (r ++ [("extreme", x)]).filter (fun kv => ¬ kv.fst == "extreme") = r := by
  rw [List.filter_append]
  have h1 : r.filter (fun kv => ¬ kv.fst == "extreme") = r := by
    rw [List.filter_eq_self]
    intro kv hkv
    have hne : kv.fst ≠ "extreme" := fun heq => h (List.mem_map.mpr ⟨kv, hkv, heq⟩)
    simp [hne]
  have h2 : ([("extreme", x)] : Row).filter (fun kv => ¬ kv.fst == "extreme") = [] := by
    simp
  rw [h1, h2, List.append_nil]

theorem filter_marked_rows (g : (ℕ × Row) → Bool) :
    ∀ rows : List (ℕ × Row), (∀ ir ∈ rows, "extreme" ∉ rowKeys ir.snd) →
      (((rows.map (fun ir =>
          (ir.fst, ir.snd ++ [("extreme", if g ir then (1 : ℚ) else 0)]))).filter
        (fun ir => rowVal ir.snd "extreme" == 0)).map
        (fun ir => (ir.fst, ir.snd.filter (fun kv => ¬ kv.fst == "extreme")))) =
      rows.filter (fun ir => ! g ir) := by
  intro rows
  induction rows with
  | nil => intro _; rfl
  | cons ir rest ih =>
    intro hkeys
    have hkey : "extreme" ∉ rowKeys ir.snd := hkeys ir (List.mem_cons_self ir rest)
    have ihr := ih (fun ir' hir' => hkeys ir' (List.mem_cons_of_mem _ hir'))
    simp only [List.map_cons]
    have hval : rowVal (ir.snd ++ [("extreme", if g ir then (1 : ℚ) else 0)]) "extreme" =
        (if g ir then (1 : ℚ) else 0) := rowVal_append_self _ _ _ hkey
    by_cases hg : g ir
    · have hcond : (rowVal (ir.snd ++ [("extreme", if g ir then (1 : ℚ) else 0)])
          "extreme" == 0) = false := by
        rw [hval, if_pos hg]
        simp
      rw [List.filter_cons_of_neg (by rw [hcond]; exact Bool.false_ne_true)]
      rw [List.filter_cons_of_neg (by simp [hg])]
      exact ihr
    · have hcond : (rowVal (ir.snd ++ [("extreme", if g ir then (1 : ℚ) else 0)])
          "extreme" == 0) = true := by
        rw [hval, if_neg hg]
        simp
      rw [List.filter_cons_of_pos (by rw [hcond])]
      rw [List.filter_cons_of_pos (by simp [hg])]
      simp only [List.map_cons]
      rw [ihr]
      congr 1
      exact Prod.ext rfl (row_drop_extreme _ _ hkey)

theorem not_any_viol_eq_specKeep (df : DF) (fs : List String) (pct : ℚ) (r : Row) :
    (!(fs.any (fun f => violB df pct f r))) = specKeep df fs pct r := by
  unfold specKeep violB
  induction fs with
  | nil => rfl
  | cons f fs ih =>
    simp only [List.any_cons, List.all_cons, Bool.not_or, ih]
    congr 1
    have hiff : (percentile (colVals df f) pct ≤ rowVal r f ∧
        rowVal r f ≤ percentile (colVals df f) (100 - pct)) ↔
        ¬(rowVal r f < percentile (colVals df f) pct ∨
          percentile (colVals df f) (100 - pct) < rowVal r f) := by
      rw [not_or]
      constructor
      · rintro ⟨h1, h2⟩
        exact ⟨not_lt.mpr h1, not_lt.mpr h2⟩
      · rintro ⟨h1, h2⟩
        exact ⟨not_lt.mp h1, not_lt.mp h2⟩
    rw [← decide_not, decide_eq_decide]
    exact hiff.symm

/-- Full characterization of `filter_extremes_based_on_percentile` on a
well-formed input (no pre-existing `extreme` column, features present,
`0 ≤ pct < 50`, nonempty): the caller's dataframe ends up with the `extreme`
flag column appended, holding for each row whether some listed feature
violates its percentile cutoffs, and the returned dataframe keeps exactly the
rows satisfying `specKeep`, with their original columns and values. -/
theorem filter_extremes_full (df : DF) (features : List String) (pct : ℚ)
    (hcols : "extreme" ∉ df.cols)
    (hrows : ∀ ir ∈ df.rows, "extreme" ∉ rowKeys ir.snd)
    (hfs : ∀ f ∈ features, f ∈ df.cols)
    (h0 : 0 ≤ pct) (h50 : pct < 50) (hne : df.rows ≠ []) :
    filter_extremes_based_on_percentile df features pct =
      (markedDF df (df.rows.map (fun ir => features.any (fun f => violB df pct f ir.snd))),
       Except.ok (DF.mk df.cols
         (df.rows.filter (fun ir => specKeep df features pct ir.snd)))) := by
  unfold filter_extremes_based_on_percentile
  rw [dfSetExtreme_eq_marked df hcols hrows]
  rw [markLoop_no_error pct h0 (by linarith) features df
    (List.replicate df.rows.length false) (by simp) hne hcols hrows hfs]
  rw [zipWith_replicate_right]
  simp only [Bool.false_or]
  unfold markedDF
  rw [zip_map_self_map]
  dsimp only
  refine Prod.ext rfl ?_
  refine congrArg Except.ok ?_
  dsimp only
  congr 1
  · exact cols_drop_extreme df.cols hcols
  · rw [filter_marked_rows _ df.rows hrows]
    apply List.filter_congr
    intro ir hir
    exact not_any_viol_eq_specKeep df features pct ir.snd

/-- C2 counterexample: a dataframe whose only column is literally named
`extreme` — the name of the function's temporary flag column.  The statement
`df["extreme"] = False` overwrites that column before the percentiles are
computed, so the cutoffs are taken over the overwritten zeros instead of the
original values `5, 10`: the claim predicts that no record survives
(`[5.5, 9.5]` excludes both), but the function returns both records (with the
column's values destroyed). -/
theorem filter_extremes_keeps_cex :
    okRowsD (filter_extremes_based_on_percentile
        (DF.mk ["extreme"] [(0, [("extreme", (5 : ℚ))]), (1, [("extreme", (10 : ℚ))])])
        ["extreme"] 10).snd ≠
    some ((DF.mk ["extreme"]
        [(0, [("extreme", (5 : ℚ))]), (1, [("extreme", (10 : ℚ))])]).rows.filter
      (fun ir => specKeep
        (DF.mk ["extreme"] [(0, [("extreme", (5 : ℚ))]), (1, [("extreme", (10 : ℚ))])])
        ["extreme"] 10 ir.snd)) := by
  with_unfolding_all decide

/-- C2 (amended): for every dataframe with a nonempty row set and no column
named `extreme` (the function's reserved temporary flag name), every list of
feature columns present in it, and every `pct` in `[0, 50)`,
`filter_extremes_based_on_percentile` returns exactly the records whose value
on every listed feature lies within the closed interval from the `pct`-th to
the `(100-pct)`-th percentile of that feature over the original unfiltered
input; a record is dropped iff some listed feature is strictly outside its
cutoffs. -/
theorem filter_extremes_keeps_iff (df : DF) (features : List String) (pct : ℚ)
    (hcols : "extreme" ∉ df.cols)
    (hrows : ∀ ir ∈ df.rows, "extreme" ∉ rowKeys ir.snd)
    (hfs : ∀ f ∈ features, f ∈ df.cols)
    (h0 : 0 ≤ pct) (h50 : pct < 50) (hne : df.rows ≠ []) :
    (filter_extremes_based_on_percentile df features pct).snd =
      Except.ok (DF.mk df.cols
        (df.rows.filter (fun ir => specKeep df features pct ir.snd))) := by
  rw [filter_extremes_full df features pct hcols hrows hfs h0 h50 hne]

theorem filter_extremes_keeps_iff_witness :
    ("extreme" ∉ (DF.mk ["a"] [(0, [("a", (1 : ℚ))]), (1, [("a", (2 : ℚ))]),
        (2, [("a", (3 : ℚ))])]).cols) ∧
    (∀ ir ∈ (DF.mk ["a"] [(0, [("a", (1 : ℚ))]), (1, [("a", (2 : ℚ))]),
        (2, [("a", (3 : ℚ))])]).rows, "extreme" ∉ rowKeys ir.snd) ∧
    (∀ f ∈ ["a"], f ∈ (DF.mk ["a"] [(0, [("a", (1 : ℚ))]), (1, [("a", (2 : ℚ))]),
        (2, [("a", (3 : ℚ))])]).cols) ∧
    ((0 : ℚ) ≤ 10) ∧ ((10 : ℚ) < 50) ∧
    ((DF.mk ["a"] [(0, [("a", (1 : ℚ))]), (1, [("a", (2 : ℚ))]),
        (2, [("a", (3 : ℚ))])]).rows ≠ []) ∧
    ((filter_extremes_based_on_percentile (DF.mk ["a"] [(0, [("a", (1 : ℚ))]),
        (1, [("a", (2 : ℚ))]), (2, [("a", (3 : ℚ))])]) ["a"] 10).snd =
      Except.ok (DF.mk (DF.mk ["a"] [(0, [("a", (1 : ℚ))]), (1, [("a", (2 : ℚ))]),
          (2, [("a", (3 : ℚ))])]).cols
        ((DF.mk ["a"] [(0, [("a", (1 : ℚ))]), (1, [("a", (2 : ℚ))]),
            (2, [("a", (3 : ℚ))])]).rows.filter
          (fun ir => specKeep (DF.mk ["a"] [(0, [("a", (1 : ℚ))]), (1, [("a", (2 : ℚ))]),
            (2, [("a", (3 : ℚ))])]) ["a"] 10 ir.snd)))) :=
  ⟨by decide, by decide, by decide, by decide, by decide, by decide,
   filter_extremes_keeps_iff
     (DF.mk ["a"] [(0, [("a", (1 : ℚ))]), (1, [("a", (2 : ℚ))]), (2, [("a", (3 : ℚ))])])
     ["a"] 10 (by decide) (by decide) (by decide) (by decide) (by decide) (by decide)⟩

/-- C8 counterexample: after the call, the caller's dataframe is not equal to
its pre-call state — it has gained the temporary `extreme` column. -/
theorem filter_extremes_mutates_cex :
    (filter_extremes_based_on_percentile
        (DF.mk ["a"] [(0, [("a", (1 : ℚ))])]) ["a"] 0).fst ≠
      DF.mk ["a"] [(0, [("a", (1 : ℚ))])] := by
  with_unfolding_all decide

/-- C8 (amended): `filter_extremes_based_on_percentile` does mutate the
caller's input: the input dataframe ends up with an additional `extreme`
column holding the per-row extremeness marks, while all original columns and
their values are unchanged (each final row is the original row with the flag
entry appended); the returned collection keeps the original columns and its
retained records are an (unmodified) subsequence of the input records. -/
theorem filter_extremes_mutation_spec (df : DF) (features : List String) (pct : ℚ)
    (hcols : "extreme" ∉ df.cols)
    (hrows : ∀ ir ∈ df.rows, "extreme" ∉ rowKeys ir.snd)
    (hfs : ∀ f ∈ features, f ∈ df.cols)
    (h0 : 0 ≤ pct) (h50 : pct < 50) (hne : df.rows ≠ []) :
    ((filter_extremes_based_on_percentile df features pct).fst.cols =
        df.cols ++ ["extreme"] ∧
     (filter_extremes_based_on_percentile df features pct).fst.rows =
        df.rows.map (fun ir => (ir.fst, ir.snd ++ [("extreme",
          if features.any (fun f => violB df pct f ir.snd) then (1 : ℚ) else 0)]))) ∧
    ∃ res, (filter_extremes_based_on_percentile df features pct).snd = Except.ok res ∧
      res.cols = df.cols ∧ res.rows.Sublist df.rows := by
  rw [filter_extremes_full df features pct hcols hrows hfs h0 h50 hne]
  refine ⟨⟨rfl, ?_⟩, DF.mk df.cols
    (df.rows.filter (fun ir => specKeep df features pct ir.snd)), rfl, rfl,
    List.filter_sublist df.rows⟩
  unfold markedDF
  rw [zip_map_self_map]

theorem filter_extremes_mutation_spec_witness :
    ("extreme" ∉ (DF.mk ["b"] [(5, [("b", (7 : ℚ))])]).cols) ∧
    (∀ ir ∈ (DF.mk ["b"] [(5, [("b", (7 : ℚ))])]).rows, "extreme" ∉ rowKeys ir.snd) ∧
    (∀ f ∈ ["b"], f ∈ (DF.mk ["b"] [(5, [("b", (7 : ℚ))])]).cols) ∧
    ((0 : ℚ) ≤ 1) ∧ ((1 : ℚ) < 50) ∧
    ((DF.mk ["b"] [(5, [("b", (7 : ℚ))])]).rows ≠ []) ∧
    (((filter_extremes_based_on_percentile (DF.mk ["b"] [(5, [("b", (7 : ℚ))])])
          ["b"] 1).fst.cols = (DF.mk ["b"] [(5, [("b", (7 : ℚ))])]).cols ++ ["extreme"] ∧
      (filter_extremes_based_on_percentile (DF.mk ["b"] [(5, [("b", (7 : ℚ))])])
          ["b"] 1).fst.rows =
        (DF.mk ["b"] [(5, [("b", (7 : ℚ))])]).rows.map (fun ir => (ir.fst, ir.snd ++
          [("extreme", if ["b"].any (fun f =>
            violB (DF.mk ["b"] [(5, [("b", (7 : ℚ))])]) 1 f ir.snd) then (1 : ℚ) else 0)])) ) ∧
    ∃ res, (filter_extremes_based_on_percentile (DF.mk ["b"] [(5, [("b", (7 : ℚ))])])
        ["b"] 1).snd = Except.ok res ∧
      res.cols = (DF.mk ["b"] [(5, [("b", (7 : ℚ))])]).cols ∧
      res.rows.Sublist (DF.mk ["b"] [(5, [("b", (7 : ℚ))])]).rows) :=
  ⟨by decide, by decide, by decide, by decide, by decide, by decide,
   filter_extremes_mutation_spec (DF.mk ["b"] [(5, [("b", (7 : ℚ))])]) ["b"] 1
     (by decide) (by decide) (by decide) (by decide) (by decide) (by decide)⟩

theorem markLoop_error_iff (pct : ℚ) :
    ∀ (fs : List String) (d : DF),
      (markLoop pct d fs).snd.isSome = true ↔
        (fs ≠ [] ∧ (pct < 0 ∨ 100 < pct ∨ d.rows = [] ∨ ∃ f ∈ fs, f ∉ d.cols)) := by
  intro fs
  induction fs with
  | nil =>
    intro d
    simp [markLoop]
  | cons f fs ih =>
    intro d
    simp only [markLoop]
    by_cases h1 : f ∉ d.cols
    · rw [if_pos h1]
      constructor
      · intro _
        exact ⟨by simp, Or.inr (Or.inr (Or.inr ⟨f, List.mem_cons_self f fs, h1⟩))⟩
      · intro _
        rfl
    · rw [if_neg h1]
      by_cases h2 : pct < 0 ∨ 100 < pct
      · rw [if_pos h2]
        constructor
        · intro _
          rcases h2 with h | h
          · exact ⟨by simp, Or.inl h⟩
          · exact ⟨by simp, Or.inr (Or.inl h)⟩
        · intro _
          rfl
      · rw [if_neg h2]
        by_cases h3 : d.rows = []
        · rw [if_pos h3]
          constructor
          · intro _
            exact ⟨by simp, Or.inr (Or.inr (Or.inl h3))⟩
          · intro _
            rfl
        · rw [if_neg h3]
          rw [ih]
          have hrows_iff : (markRows d f (percentile (colVals d f) pct)
              (percentile (colVals d f) (100 - pct))).rows = [] ↔ d.rows = [] := by
            unfold markRows
            simp [List.map_eq_nil_iff]
          constructor
          · rintro ⟨hfs, hc⟩
            refine ⟨by simp, ?_⟩
            rcases hc with h | h | h | ⟨f', hf', hnf⟩
            · exact Or.inl h
            · exact Or.inr (Or.inl h)
            · exact absurd (hrows_iff.mp h) h3
            · exact Or.inr (Or.inr (Or.inr ⟨f', List.mem_cons_of_mem _ hf', hnf⟩))
          · rintro ⟨_, hc⟩
            rcases hc with h | h | h | ⟨f', hf', hnf⟩
            · exact absurd (Or.inl h) h2
            · exact absurd (Or.inr h) h2
            · exact absurd h h3
            · rcases List.mem_cons.mp hf' with rfl | hf'
              · exact absurd hnf (by simpa using h1)
              · exact ⟨List.ne_nil_of_mem hf', Or.inr (Or.inr (Or.inr ⟨f', hf', hnf⟩))⟩

/-- C9 counterexample: `pct = 60` lies outside `[0, 50)`, yet the call raises
nothing — `np.percentile` accepts any value in `[0, 100]` — and filtering does
take place, with crossed cutoffs (the 60th percentile as lower bound and the
40th as upper bound) that drop every record of this input. -/
theorem filter_extremes_pct60_cex :
    okRowsD (filter_extremes_based_on_percentile
        (DF.mk ["a"] [(0, [("a", (1 : ℚ))]), (1, [("a", (2 : ℚ))])]) ["a"] 60).snd =
      some [] := by
  with_unfolding_all decide

/-- C9 (amended): `filter_extremes_based_on_percentile` raises an exception
iff the feature list is nonempty and either `pct` lies outside `[0, 100]`
(the range `np.percentile` accepts — not `[0, 50)` as claimed), or the input
has no rows, or some listed feature is absent from the columns of the
dataframe after the temporary `extreme` column has been added; in particular
`pct ∈ [50, 100]` raises nothing and the (crossed-cutoff) filtering is
performed. -/
theorem filter_extremes_error_iff (df : DF) (features : List String) (pct : ℚ) :
    exOk (filter_extremes_based_on_percentile df features pct).snd = false ↔
      (features ≠ [] ∧ (pct < 0 ∨ 100 < pct ∨ df.rows = [] ∨
        ∃ f ∈ features, f ∉ (dfSetExtreme df).cols)) := by
  have h := markLoop_error_iff pct features (dfSetExtreme df)
  have hrows : (dfSetExtreme df).rows = [] ↔ df.rows = [] := by
    unfold dfSetExtreme
    simp [List.map_eq_nil_iff]
  rw [hrows] at h
  unfold filter_extremes_based_on_percentile
  rcases hml : markLoop pct (dfSetExtreme df) features with ⟨d1, oe⟩
  rw [hml] at h
  cases oe with
  | some e =>
    simp only [Option.isSome_some] at h
    simp only [exOk]
    exact ⟨fun _ => h.mp trivial, fun _ => trivial⟩
  | none =>
    simp only [Option.isSome_none, Bool.false_eq_true, false_iff] at h
    simp only [exOk]
    constructor
    · intro hc
      exact absurd hc (by simp)
    · intro hrhs
      exact absurd hrhs h

/-- C7 counterexample: on the same input, requesting the per-structure
frequency table changes the first returned value.  Without the flag the first
value is the per-cell filtered collection annotated with the `bin` column;
with the flag it is `df_agg`, the per-bin groupby-mean aggregate (here: other
columns, different rows). -/
theorem digitize_freqs_first_cex :
    okFirstD (digitize_shape_mode (fun _ => 1) (fun _ => "A")
        (DF.mk ["PC"] [(1, [("PC", (0 : ℚ))]), (2, [("PC", (4 : ℚ))])]) "PC" 2 [] 1 true) ≠
    okFirstD (digitize_shape_mode (fun _ => 1) (fun _ => "A")
        (DF.mk ["PC"] [(1, [("PC", (0 : ℚ))]), (2, [("PC", (4 : ℚ))])]) "PC" 2 [] 1 false) := by
  with_unfolding_all decide

theorem mem_natUnique_of_mem {a : ℕ} {l : List ℕ} (h : a ∈ l) : a ∈ natUnique l := by
  unfold natUnique
  rw [List.mem_dedup]
  exact ((List.perm_insertionSort _ _).mem_iff).mpr h

theorem map_fst_mk_eq {α β γ : Type} (l : List α) (f : α → β) (g : α → γ) :
    (l.map (fun a => (a, f a))).map Prod.fst = (l.map (fun a => (a, g a))).map Prod.fst := by
  rw [List.map_map, List.map_map]
  rfl

/-- C7 (amended): requesting the per-structure/per-bin frequency table leaves
the bin-index list, the bin centers and `σ` unchanged and adds the frequency
table as an extra value, but it also replaces the first returned value: the
run without the flag returns the filtered per-cell collection annotated with
the bin column (each record's index belongs to some bin's member list), while
the run with the flag returns instead the per-bin mean aggregate `df_agg`,
keyed by the distinct bin indices. -/
theorem digitize_flag_switches_first
    (sqrtQ : ℚ → ℚ) (sname : ℕ → String) (df : DF) (feature : String) (nbins : ℕ)
    (fbo : List String) (pct : ℚ) (o1 : DigitizeOut)
    (h : digitize_shape_mode sqrtQ sname df feature nbins fbo pct false = Except.ok o1) :
    ∃ o2, digitize_shape_mode sqrtQ sname df feature nbins fbo pct true = Except.ok o2 ∧
      o2.bin_indexes = o1.bin_indexes ∧
      o2.bin_centers = o1.bin_centers ∧
      o2.pc_std = o1.pc_std ∧
      o1.freqs = none ∧
      o2.freqs.isSome = true ∧
      o2.first.rows.map Prod.fst = o2.bin_indexes.map Prod.fst ∧
      (∀ ir ∈ o1.first.rows, ∃ bi ∈ o1.bin_indexes, ir.fst ∈ bi.snd) := by
  simp only [digitize_shape_mode] at h ⊢
  split at h
  · cases h
  · rename_i hfeat
    split at h
    · cases h
    · rename_i dff hfil
      rw [if_neg Bool.false_ne_true] at h
      cases h
      rw [if_neg hfeat]
      simp only [if_true]
      refine ⟨_, rfl, by trivial, by trivial, by trivial, by trivial, by trivial, ?_, ?_⟩
      · exact map_fst_mk_eq _ _ _
      · intro ir hir
        rcases List.mem_map.mp hir with ⟨p, hp, rfl⟩
        have hbmem := (List.of_mem_zip hp).2
        have hbdist := mem_natUnique_of_mem hbmem
        refine ⟨_, List.mem_map.mpr ⟨p.snd, hbdist, rfl⟩, ?_⟩
        apply List.mem_map.mpr
        refine ⟨(p.fst.fst, setVal p.fst.snd "bin" (p.snd : ℚ)), ?_, rfl⟩
        apply List.mem_filter.mpr
        refine ⟨List.mem_map.mpr ⟨p, hp, rfl⟩, ?_⟩
        simp [rowVal_setVal_self]

theorem digitize_flag_switches_first_witness :
    (digitize_shape_mode (fun _ => 1) (fun _ => "A")
        (DF.mk ["PC"] [(1, [("PC", (0 : ℚ))]), (2, [("PC", (4 : ℚ))])]) "PC" 2 [] 1 false =
      Except.ok (DigitizeOut.mk
        (DF.mk ["PC", "bin"] [(1, [("PC", (0 : ℚ)), ("bin", (1 : ℚ))]),
          (2, [("PC", (4 : ℚ)), ("bin", (2 : ℚ))])])
        [(1, [1]), (2, [2])] [-2, 2] 1 none)) ∧
    (∃ o2, digitize_shape_mode (fun _ => 1) (fun _ => "A")
        (DF.mk ["PC"] [(1, [("PC", (0 : ℚ))]), (2, [("PC", (4 : ℚ))])]) "PC" 2 [] 1 true =
        Except.ok o2 ∧
      o2.bin_indexes = (DigitizeOut.mk
        (DF.mk ["PC", "bin"] [(1, [("PC", (0 : ℚ)), ("bin", (1 : ℚ))]),
          (2, [("PC", (4 : ℚ)), ("bin", (2 : ℚ))])])
        [(1, [1]), (2, [2])] [-2, 2] 1 none).bin_indexes ∧
      o2.bin_centers = (DigitizeOut.mk
        (DF.mk ["PC", "bin"] [(1, [("PC", (0 : ℚ)), ("bin", (1 : ℚ))]),
          (2, [("PC", (4 : ℚ)), ("bin", (2 : ℚ))])])
        [(1, [1]), (2, [2])] [-2, 2] 1 none).bin_centers ∧
      o2.pc_std = (DigitizeOut.mk
        (DF.mk ["PC", "bin"] [(1, [("PC", (0 : ℚ)), ("bin", (1 : ℚ))]),
          (2, [("PC", (4 : ℚ)), ("bin", (2 : ℚ))])])
        [(1, [1]), (2, [2])] [-2, 2] 1 none).pc_std ∧
      (DigitizeOut.mk
        (DF.mk ["PC", "bin"] [(1, [("PC", (0 : ℚ)), ("bin", (1 : ℚ))]),
          (2, [("PC", (4 : ℚ)), ("bin", (2 : ℚ))])])
        [(1, [1]), (2, [2])] [-2, 2] 1 none).freqs = none ∧
      o2.freqs.isSome = true ∧
      o2.first.rows.map Prod.fst = o2.bin_indexes.map Prod.fst ∧
      (∀ ir ∈ (DigitizeOut.mk
        (DF.mk ["PC", "bin"] [(1, [("PC", (0 : ℚ)), ("bin", (1 : ℚ))]),
          (2, [("PC", (4 : ℚ)), ("bin", (2 : ℚ))])])
        [(1, [1]), (2, [2])] [-2, 2] 1 none).first.rows,
        ∃ bi ∈ (DigitizeOut.mk
          (DF.mk ["PC", "bin"] [(1, [("PC", (0 : ℚ)), ("bin", (1 : ℚ))]),
            (2, [("PC", (4 : ℚ)), ("bin", (2 : ℚ))])])
          [(1, [1]), (2, [2])] [-2, 2] 1 none).bin_indexes, ir.fst ∈ bi.snd)) :=
  ⟨by with_unfolding_all rfl,
   digitize_flag_switches_first (fun _ => 1) (fun _ => "A")
     (DF.mk ["PC"] [(1, [("PC", (0 : ℚ))]), (2, [("PC", (4 : ℚ))])]) "PC" 2 [] 1
     (DigitizeOut.mk
       (DF.mk ["PC", "bin"] [(1, [("PC", (0 : ℚ)), ("bin", (1 : ℚ))]),
         (2, [("PC", (4 : ℚ)), ("bin", (2 : ℚ))])])
       [(1, [1]), (2, [2])] [-2, 2] 1 none)
     (by with_unfolding_all rfl)⟩
